import Mathlib

/-!
Verification of the pgdog PostgreSQL proxy core: wire codec, server
connection state machine, sort buffer, query router and pool configuration.

Rust strings and byte buffers are modelled as lists of natural numbers
(one entry per byte); wire integers (i16, i32) are modelled as `Int` with
explicit two's-complement encoding and wrapping casts where the source
performs `as` casts.  Fallible operations return `Except`; a panic of the
`bytes` crate (read past the end of a buffer) is modelled as an error.
-/

set_option maxRecDepth 8192

namespace Pgdog

/-- A byte string: the model of Rust `String` and `Bytes` (one `Nat` per byte). -/
abbrev Bstr := List Nat

/-- All bytes are in range and the string contains no NUL byte: the
well-formedness assumption for strings placed on the wire with a
NUL terminator. -/
def BstrWf (s : Bstr) : Prop := ∀ b ∈ s, 0 < b ∧ b < 256

instance (s : Bstr) : Decidable (BstrWf s) := by
  unfold BstrWf; infer_instance

/-! ### Wire primitives

Models of the `bytes` crate reads used by the codecs (`get_u8`, `get_i16`,
`get_i32` big-endian, reading `n` raw bytes) and of the `Payload` writer.
A read past the end of the buffer panics in the source; the model returns
`WireErr.eof`.  `c_string_buf` and `Payload` live in `net/mod.rs` and
`net/messages/payload.rs`, which are not under `src/`; they are modelled
from the spec ("Strings are NUL-terminated", framing
`[tag][length:i32 BE including length but not tag][payload]`). -/

/-- Wire decoding errors: tag mismatch (`Error::UnexpectedMessage`) or a read
past the end of the buffer (a panic of the `bytes` crate in the source). -/
inductive WireErr where
  | unexpectedMessage (expected got : Nat)
  | eof
deriving DecidableEq, Repr

/-- Read one byte (`Buf::get_u8`). -/
def getU8 : Bstr → Except WireErr (Nat × Bstr)
  | [] => .error .eof
  | b :: rest => .ok (b, rest)

/-- Two's-complement value of a 16-bit big-endian quantity. -/
def decI16 (n : Nat) : Int :=
  if n % 65536 < 32768 then (n % 65536 : Nat) else (n % 65536 : Nat) - 65536

/-- Two's-complement value of a 32-bit big-endian quantity. -/
def decI32 (n : Nat) : Int :=
  if n % 4294967296 < 2147483648 then (n % 4294967296 : Nat)
  else (n % 4294967296 : Nat) - 4294967296

/-- Read a big-endian i16 (`Buf::get_i16`). -/
def getI16 : Bstr → Except WireErr (Int × Bstr)
  | b0 :: b1 :: rest => .ok (decI16 (b0 * 256 + b1), rest)
  | _ => .error .eof

/-- Read a big-endian i32 (`Buf::get_i32`). -/
def getI32 : Bstr → Except WireErr (Int × Bstr)
  | b0 :: b1 :: b2 :: b3 :: rest =>
    .ok (decI32 (b0 * 16777216 + b1 * 65536 + b2 * 256 + b3), rest)
  | _ => .error .eof

/-- Read `n` raw bytes; fails (source: panics) when fewer remain. -/
def getN (n : Nat) (s : Bstr) : Except WireErr (Bstr × Bstr) :=
  if n ≤ s.length then .ok (s.take n, s.drop n) else .error .eof

/-- Modelled from the spec: `c_string_buf` (in `net/mod.rs`, not under
`src/`) reads bytes up to and including the first NUL, or to the end of the
buffer when no NUL remains, and returns the bytes before the NUL. -/
def c_string_buf : Bstr → Bstr × Bstr
  | [] => ([], [])
  | b :: rest =>
    if b = 0 then ([], rest)
    else
      let p := c_string_buf rest
      (b :: p.1, p.2)

/-- Big-endian encoding of an i16 value (`Payload::put_i16`). -/
def encI16 (v : Int) : Bstr :=
  let n := (v % 65536).toNat
  [n / 256, n % 256]

/-- Big-endian encoding of an i32 value (`Payload::put_i32`). -/
def encI32 (v : Int) : Bstr :=
  let n := (v % 4294967296).toNat
  [n / 16777216, n / 65536 % 256, n / 256 % 256, n % 256]

/-- Rust `usize as i16` wrapping cast. -/
def wrapI16 (n : Nat) : Int :=
  let m := n % 65536
  if m < 32768 then (m : Nat) else (m : Nat) - 65536

/-- Rust `usize as i32` wrapping cast. -/
def wrapI32 (n : Nat) : Int :=
  let m := n % 4294967296
  if m < 2147483648 then (m : Nat) else (m : Nat) - 4294967296

/-- Rust `i32 as usize` cast on a 64-bit target (sign extension then
reinterpretation). -/
def i32AsUsize (v : Int) : Nat := (v % 18446744073709551616).toNat

/-- Rust `i16 as usize` cast on a 64-bit target. -/
def i16AsUsize (v : Int) : Nat := (v % 18446744073709551616).toNat

/-- Message framing (`Payload::freeze`): tag byte, then the total length
including the length field itself but not the tag, then the body. -/
def frame (tag : Nat) (body : Bstr) : Bstr :=
  tag :: encI32 (wrapI32 (body.length + 4)) ++ body

/-- Consume the tag byte (checking it, `code!`) and the 4-byte length. -/
def msgPrelude (expected : Nat) (s : Bstr) : Except WireErr Bstr := do
  let (c, s) ← getU8 s
  if c = expected then
    let (_, s) ← getI32 s
    .ok s
  else
    .error (.unexpectedMessage expected c)

/-- An i16 value's range. -/
def inI16 (v : Int) : Prop := -32768 ≤ v ∧ v < 32768

/-- An i32 value's range. -/
def inI32 (v : Int) : Prop := -2147483648 ≤ v ∧ v < 2147483648

instance (v : Int) : Decidable (inI16 v) := by unfold inI16; infer_instance

instance (v : Int) : Decidable (inI32 v) := by unfold inI32; infer_instance

/-! ### RowDescription (`net/messages/row_description.rs`) -/

/-- Column field description, from `net/messages/row_description.rs`
(struct `Field`). -/
structure WireField where
  name : Bstr
  table_oid : Int
  column : Int
  type_oid : Int
  type_size : Int
  type_modifier : Int
  format : Int
deriving DecidableEq, Repr

/-- RowDescription message, from `net/messages/row_description.rs`. -/
structure RowDescription where
  fields : List WireField
deriving DecidableEq, Repr

/-- Get field index by name, O(n): `RowDescription::field_index`. -/
def RowDescription.field_index (rd : RowDescription) (name : Bstr) : Option Nat :=
  go rd.fields 0
where
  go : List WireField → Nat → Option Nat
  | [], _ => none
  | f :: rest, i => if f.name = name then some i else go rest (i + 1)

/-- `RowDescription::equivalent`: iterates over `self.fields.iter().zip(other.fields.iter())`
and returns `false` on the first pair disagreeing on `name` or `type_oid`. -/
def RowDescription.equivalent (rd other : RowDescription) : Bool :=
  (rd.fields.zip other.fields).all fun p =>
    decide (p.1.name = p.2.name) && decide (p.1.type_oid = p.2.type_oid)

/-- Encoding of a single field inside `RowDescription::to_bytes`. -/
def encField (f : WireField) : Bstr :=
  f.name ++ [0] ++ encI32 f.table_oid ++ encI16 f.column ++ encI32 f.type_oid ++
    encI16 f.type_size ++ encI32 f.type_modifier ++ encI16 f.format

/-- `RowDescription::to_bytes`: field count as i16, then each field. -/
def RowDescription.to_bytes (rd : RowDescription) : Bstr :=
  frame 84 (encI16 (wrapI16 rd.fields.length) ++ (rd.fields.map encField).flatten)

/-- Decoding of a single field inside `RowDescription::from_bytes`. -/
def getField (s : Bstr) : Except WireErr (WireField × Bstr) := do
  let p := c_string_buf s
  let (table_oid, s) ← getI32 p.2
  let (column, s) ← getI16 s
  let (type_oid, s) ← getI32 s
  let (type_size, s) ← getI16 s
  let (type_modifier, s) ← getI32 s
  let (format, s) ← getI16 s
  .ok (⟨p.1, table_oid, column, type_oid, type_size, type_modifier, format⟩, s)

/-- Decoding of `n` consecutive fields. -/
def getFields : Nat → Bstr → Except WireErr (List WireField × Bstr)
  | 0, s => .ok ([], s)
  | n + 1, s => do
    let (f, s) ← getField s
    let (fs, s) ← getFields n s
    .ok (f :: fs, s)

/-- `RowDescription::from_bytes`: check tag 'T', skip the length, read the
field count as i16 and iterate (a non-positive count yields no fields). -/
def RowDescription.from_bytes (s : Bstr) : Except WireErr RowDescription := do
  let s ← msgPrelude 84 s
  let (cnt, s) ← getI16 s
  let (fields, _) ← getFields cnt.toNat s
  .ok ⟨fields⟩

/-- Well-formed field: the name is NUL-free and every numeric member fits
the wire width it is written with. -/
def WireFieldWf (f : WireField) : Prop :=
  BstrWf f.name ∧ inI32 f.table_oid ∧ inI16 f.column ∧ inI32 f.type_oid ∧
    inI16 f.type_size ∧ inI32 f.type_modifier ∧ inI16 f.format

instance (f : WireField) : Decidable (WireFieldWf f) := by
  unfold WireFieldWf; infer_instance

/-- Well-formed row description: the field count fits an i16. -/
def RowDescriptionWf (rd : RowDescription) : Prop :=
  rd.fields.length < 32768 ∧ ∀ f ∈ rd.fields, WireFieldWf f

instance (rd : RowDescription) : Decidable (RowDescriptionWf rd) := by
  unfold RowDescriptionWf; infer_instance

/-! ### DataRow (`net/messages/data_row.rs`) -/

/-- DataRow message: a list of column payloads. -/
structure DataRow where
  columns : List Bstr
deriving DecidableEq, Repr

/-- `DataRow::column`: data for column at index. -/
def DataRow.column (dr : DataRow) (index : Nat) : Option Bstr :=
  dr.columns.get? index

/-- `DataRow::to_bytes`: column count as i16, then `[length:i32][bytes]`
per column.  The length written is `column.len() as i32`: the codec has no
separate NULL representation and never writes `-1`. -/
def DataRow.to_bytes (dr : DataRow) : Bstr :=
  frame 68 (encI16 (wrapI16 dr.columns.length) ++
    (dr.columns.map fun c => encI32 (wrapI32 c.length) ++ c).flatten)

/-- Decoding of `n` consecutive columns: each is a `[length:i32][bytes]`
pair; the length is cast `as usize` (so `-1` becomes `2^64 - 1` and the
read fails). -/
def getColumns : Nat → Bstr → Except WireErr (List Bstr × Bstr)
  | 0, s => .ok ([], s)
  | n + 1, s => do
    let (len, s) ← getI32 s
    let (col, s) ← getN (i32AsUsize len) s
    let (cols, s) ← getColumns n s
    .ok (col :: cols, s)

/-- `DataRow::from_bytes`: check tag 'D', skip the length, read the column
count as i16 and iterate. -/
def DataRow.from_bytes (s : Bstr) : Except WireErr DataRow := do
  let s ← msgPrelude 68 s
  let (cnt, s) ← getI16 s
  let (columns, _) ← getColumns cnt.toNat s
  .ok ⟨columns⟩

/-- Well-formed data row: the column count fits an i16 and each column
length fits a nonnegative i32. -/
def DataRowWf (dr : DataRow) : Prop :=
  dr.columns.length < 32768 ∧ ∀ c ∈ dr.columns, c.length < 2147483648

instance (dr : DataRow) : Decidable (DataRowWf dr) := by
  unfold DataRowWf; infer_instance

/-! ### Parse (`net/messages/parse.rs`) -/

/-- Parse (F) message. -/
structure Parse where
  name : Bstr
  query : Bstr
  data_types : List Int
deriving DecidableEq, Repr

/-- `Parse::to_bytes`: two NUL-terminated strings, the data type count as
i16, then each data type as i32. -/
def Parse.to_bytes (p : Parse) : Bstr :=
  frame 80 (p.name ++ [0] ++ p.query ++ [0] ++ encI16 (wrapI16 p.data_types.length) ++
    (p.data_types.map encI32).flatten)

/-- Decoding of `n` consecutive i32 values. -/
def getI32Many : Nat → Bstr → Except WireErr (List Int × Bstr)
  | 0, s => .ok ([], s)
  | n + 1, s => do
    let (v, s) ← getI32 s
    let (vs, s) ← getI32Many n s
    .ok (v :: vs, s)

/-- `Parse::from_bytes`: check tag 'P', skip the length, read two strings,
then the parameter count (`get_i16() as usize`) and that many i32 values. -/
def Parse.from_bytes (s : Bstr) : Except WireErr Parse := do
  let s ← msgPrelude 80 s
  let p1 := c_string_buf s
  let p2 := c_string_buf p1.2
  let (cnt, s) ← getI16 p2.2
  let (data_types, _) ← getI32Many (i16AsUsize cnt) s
  .ok ⟨p1.1, p2.1, data_types⟩

/-- Well-formed Parse: NUL-free strings, data type count fits i16, each
data type fits i32. -/
def ParseWf (p : Parse) : Prop :=
  BstrWf p.name ∧ BstrWf p.query ∧ p.data_types.length < 32768 ∧
    ∀ t ∈ p.data_types, inI32 t

instance (p : Parse) : Decidable (ParseWf p) := by
  unfold ParseWf; infer_instance

/-! ### ParameterStatus (`net/messages/parameter_status.rs`) -/

/-- ParameterStatus (B) message. -/
structure ParameterStatus where
  name : Bstr
  value : Bstr
deriving DecidableEq, Repr

/-- `ParameterStatus::to_bytes`: two NUL-terminated strings. -/
def ParameterStatus.to_bytes (ps : ParameterStatus) : Bstr :=
  frame 83 (ps.name ++ [0] ++ ps.value ++ [0])

/-- `ParameterStatus::from_bytes`: check tag 'S', skip the length, read two
strings. -/
def ParameterStatus.from_bytes (s : Bstr) : Except WireErr ParameterStatus := do
  let s ← msgPrelude 83 s
  let p1 := c_string_buf s
  let p2 := c_string_buf p1.2
  .ok ⟨p1.1, p2.1⟩

/-- Well-formed ParameterStatus: both strings NUL-free. -/
def ParameterStatusWf (ps : ParameterStatus) : Prop :=
  BstrWf ps.name ∧ BstrWf ps.value

instance (ps : ParameterStatus) : Decidable (ParameterStatusWf ps) := by
  unfold ParameterStatusWf; infer_instance

/-! ### Password (`net/messages/auth/password.rs`) -/

/-- Password (F) message. -/
inductive Password where
  | saslInitialResponse (name response : Bstr)
  | saslResponse (response : Bstr)
deriving DecidableEq, Repr

/-- `Password::to_bytes`: the SASL initial response writes the mechanism
name NUL-terminated, the response length as i32 and the raw response; the
plain SASL response writes only the raw response bytes. -/
def Password.to_bytes : Password → Bstr
  | .saslInitialResponse name response =>
    frame 112 (name ++ [0] ++ encI32 (wrapI32 response.length) ++ response)
  | .saslResponse response => frame 112 response

/-- `Password::from_bytes`: check tag 'p', skip the length, read a string;
if bytes remain it is an initial response (read the i32 length, then a
string when the length is nonnegative), otherwise a plain response. -/
def Password.from_bytes (s : Bstr) : Except WireErr Password := do
  let s ← msgPrelude 112 s
  let p := c_string_buf s
  if p.2 ≠ [] then do
    let (len, s) ← getI32 p.2
    let response := if 0 ≤ len then (c_string_buf s).1 else []
    .ok (.saslInitialResponse p.1 response)
  else
    .ok (.saslResponse p.1)

/-- Well-formed Password: strings NUL-free; the initial response length
fits a nonnegative i32. -/
def PasswordWf : Password → Prop
  | .saslInitialResponse name response =>
    BstrWf name ∧ BstrWf response ∧ response.length < 2147483648
  | .saslResponse response => BstrWf response

instance (pw : Password) : Decidable (PasswordWf pw) := by
  cases pw <;> (unfold PasswordWf; infer_instance)

/-! ### Generic Message (`net/messages/mod.rs`) -/

/-- The generic `Message` wrapper: raw payload bytes plus a streaming flag. -/
structure Message where
  payload : Bstr
  stream : Bool
deriving DecidableEq, Repr

/-- `Message::from_bytes` never fails and stores the bytes unchanged. -/
def Message.from_bytes (b : Bstr) : Except WireErr Message := .ok ⟨b, false⟩

/-- `Message::to_bytes` returns the stored payload unchanged. -/
def Message.to_bytes (m : Message) : Bstr := m.payload

/-- `Message::code` is `payload[0]`; the source indexes the first byte (a
panic on an empty payload), modelled with `Option`. -/
def Message.code (m : Message) : Option Nat := m.payload.head?

/-- `Message::new`. -/
def Message.new (b : Bstr) : Message := ⟨b, false⟩

/-- `Message::len`. -/
def Message.len (m : Message) : Nat := m.payload.length

/-! ### Server connection state machine (`backend/server.rs`)

The server's inbound messages are modelled at the typed level: a code byte
and, for ReadyForQuery ('Z'), the transaction status byte parsed by
`ReadyForQuery::from_bytes` (in `net/messages/rfq.rs`, not under `src/`,
modelled from the spec: the payload carries one status byte). -/

/-- Connection state, from `state.rs` (enum `State`). -/
inductive SrvState where
  | idle
  | active
  | idleInTransaction
  | transactionError
  | error
  | disconnected
deriving DecidableEq, Repr

/-- A message as seen by `Server::read`: its code, its ReadyForQuery
status byte (meaningful only when the code is 'Z') and its byte length. -/
structure SrvMsg where
  code : Char
  status : Char
  len : Nat
deriving DecidableEq, Repr

/-- Errors surfaced by the server connection (`backend/error.rs`). -/
inductive SrvErr where
  | notInSync
  | unexpectedTransactionStatus (status : Char)
  | io
deriving DecidableEq, Repr

/-- A message sent to the server; `execute` only ever sends `Query`. -/
inductive SentMsg where
  | query (sql : Bstr)
deriving DecidableEq, Repr

/-- The modelled state of a `Server`: protocol state, counters and the log
of messages written to the stream. -/
structure Server where
  state : SrvState
  queries : Nat
  transactions : Nat
  bytes_received : Nat
  sent : List SentMsg
deriving DecidableEq, Repr

/-- `Server::in_sync`: the connection can accept new work. -/
def Server.in_sync (s : Server) : Bool :=
  match s.state with
  | .idle | .idleInTransaction | .transactionError => true
  | _ => false

/-- `Server::in_transaction`. -/
def Server.in_transaction (s : Server) : Bool :=
  match s.state with
  | .idleInTransaction | .transactionError => true
  | _ => false

/-- `Server::done`. -/
def Server.done (s : Server) : Bool := s.state = SrvState.idle

/-- `Server::send`: flips the state to Active and appends the messages to
the stream (I/O failure is outside the model of a successful send). -/
def Server.send (s : Server) (msgs : List SentMsg) : Server :=
  { s with state := .active, sent := s.sent ++ msgs }

/-- `Server::read` on a successfully received message: accumulate the byte
counter; on 'Z' bump the query counter, parse the status byte and make the
state transition — 'I' reaches Idle and bumps the transaction counter, 'T'
and 'E' enter the transaction states, anything else is fatal. -/
def Server.read (s : Server) (m : SrvMsg) : Server × Except SrvErr SrvMsg :=
  let s := { s with bytes_received := s.bytes_received + m.len }
  if m.code = 'Z' then
    let s := { s with queries := s.queries + 1 }
    if m.status = 'I' then
      ({ s with state := .idle, transactions := s.transactions + 1 }, .ok m)
    else if m.status = 'T' then
      ({ s with state := .idleInTransaction }, .ok m)
    else if m.status = 'E' then
      ({ s with state := .transactionError }, .ok m)
    else
      ({ s with state := .error }, .error (.unexpectedTransactionStatus m.status))
  else
    (s, .ok m)

/-- Run `Server::read` over a list of messages, keeping only the state. -/
def Server.readMany (s : Server) : List SrvMsg → Server
  | [] => s
  | m :: rest => Server.readMany (s.read m).1 rest

/-- The read loop of `Server::execute`: while not `in_sync`, read the next
message; an exhausted inbound stream is an I/O failure (which marks the
connection Error, as in `Server::read`). -/
def executeLoop : List SrvMsg → Server → Server × Except SrvErr (List SrvMsg)
  | input, s =>
    if s.in_sync then (s, .ok [])
    else
      match input with
      | [] => ({ s with state := .error }, .error .io)
      | m :: rest =>
        match s.read m with
        | (s1, .ok msg) =>
          match executeLoop rest s1 with
          | (s2, .ok msgs) => (s2, .ok (msg :: msgs))
          | (s2, .error e) => (s2, .error e)
        | (s1, .error e) => (s1, .error e)

/-- `Server::execute`: reject with `NotInSync` unless in sync (sending
nothing); otherwise send `Query(sql)` and read until in sync again,
accumulating every message read. -/
def Server.execute (s : Server) (sql : Bstr) (input : List SrvMsg) :
    Server × Except SrvErr (List SrvMsg) :=
  if s.in_sync then executeLoop input (s.send [.query sql])
  else (s, .error .notInSync)

/-! ### Sort buffer (`backend/pool/connection/sort_buffer.rs`)

`OrderBy` (in `frontend/router/parser/order_by.rs`) and
`DataRow::get_column` are not under `src/`.  They are modelled from the
spec: `OrderBy` is one of `Asc(col_index)`, `Desc(col_index)`,
`AscColumn(name)`, `DescColumn(name)` with 1-based column indices, and
`get_column` resolves a 0-based column index against the row, yielding the
column's comparison value (or nothing when the row lacks the column). -/

/-- Modelled from the spec: an `ORDER BY` clause entry; column indices are
1-based as in SQL. -/
inductive OrderBy where
  | Asc (idx : Nat)
  | Desc (idx : Nat)
  | AscColumn (name : Bstr)
  | DescColumn (name : Bstr)
deriving DecidableEq, Repr

/-- Modelled from the spec: the 0-based column index of a positional
clause. -/
def OrderBy.index : OrderBy → Option Nat
  | .Asc i => some (i - 1)
  | .Desc i => some (i - 1)
  | _ => none

/-- Modelled from the spec: the column name of a named clause. -/
def OrderBy.name : OrderBy → Option Bstr
  | .AscColumn n => some n
  | .DescColumn n => some n
  | _ => none

/-- Modelled from the spec: whether the clause sorts ascending. -/
def OrderBy.asc : OrderBy → Bool
  | .Asc _ | .AscColumn _ => true
  | _ => false

/-- The comparison value of a column (`Column.value` in the source). -/
structure SortVal where
  value : Bstr
deriving DecidableEq, Repr

/-- Modelled from the spec: `DataRow::get_column` (not under `src/`)
resolves a 0-based column index against the row description and returns
the column's comparison value; a row without that column yields `none`. -/
def DataRow.get_column (dr : DataRow) (index : Nat) (rd : RowDescription) :
    Except Unit (Option SortVal) :=
  let _ := rd
  .ok ((dr.columns.get? index).map fun b => ⟨b⟩)

/-- Three-way byte comparison: the model of `partial_cmp` on column
values (total on byte strings). -/
def ncmp (x y : Nat) : Ordering :=
  if x < y then .lt else if y < x then .gt else .eq

/-- Lexicographic three-way comparison of byte strings. -/
def cmpBytes : Bstr → Bstr → Ordering
  | [], [] => .eq
  | [], _ :: _ => .lt
  | _ :: _, [] => .gt
  | x :: xs, y :: ys =>
    match ncmp x y with
    | .eq => cmpBytes xs ys
    | o => o

/-- The column resolution loop at the top of `SortBuffer::sort`: positional
clauses use their index, named clauses are resolved with
`RowDescription::field_index`, unknown names become `None` (skipped). -/
def resolveCols (columns : List OrderBy) (rd : RowDescription) :
    List (Option (Nat × Bool)) :=
  columns.map fun column =>
    match column.index with
    | some index => some (index, column.asc)
    | none =>
      match column.name with
      | some name => (rd.field_index name).map fun index => (index, column.asc)
      | none => none

/-- The row comparator closure of `SortBuffer::sort`: walk the resolved
columns; compare the two rows' values at the first column where both are
present and unequal (reversed for descending); any missing value compares
equal; ties fall through to the next clause. -/
def rowCmp (rd : RowDescription) : List (Option (Nat × Bool)) → DataRow → DataRow → Ordering
  | [], _, _ => .eq
  | none :: rest, a, b => rowCmp rd rest a b
  | some (index, asc) :: rest, a, b =>
    let o : Ordering :=
      match a.get_column index rd, b.get_column index rd with
      | .ok (some l), .ok (some r) =>
        if asc then cmpBytes l.value r.value else cmpBytes r.value l.value
      | _, _ => .eq
    if o = .eq then rowCmp rd rest a b else o

/-- The boolean "not greater" relation the stable sort uses. -/
def rowLe (rd : RowDescription) (cols : List (Option (Nat × Bool))) (a b : DataRow) : Bool :=
  decide (rowCmp rd cols a b ≠ Ordering.gt)

/-- Sort rows received from multiple shards (`SortBuffer`); the source
buffers `DataRow`s in a `VecDeque` with a `full` flag. -/
structure SortBuffer where
  buffer : List DataRow
  isFull : Bool
deriving DecidableEq, Repr

/-- `SortBuffer::add`: re-decode the message as a DataRow (failing on any
other tag) and push it at the back. -/
def SortBuffer.add (b : SortBuffer) (m : Message) : Except WireErr SortBuffer := do
  let dr ← DataRow.from_bytes m.to_bytes
  .ok { b with buffer := b.buffer ++ [dr] }

/-- `SortBuffer::full`: mark the buffer full; it starts returning messages
now. -/
def SortBuffer.full (b : SortBuffer) : SortBuffer := { b with isFull := true }

/-- `SortBuffer::sort`: resolve the columns once, then stably sort the
buffered rows with the comparator. -/
def SortBuffer.sort (b : SortBuffer) (columns : List OrderBy) (rd : RowDescription) :
    SortBuffer :=
  { b with buffer := b.buffer.mergeSort fun x y => rowLe rd (resolveCols columns rd) x y }

/-- `Protocol::message` for a DataRow: wrap its encoding. -/
def DataRow.message (dr : DataRow) : Message := Message.new dr.to_bytes

/-- `SortBuffer::take`: `None` until the buffer was marked full; afterwards
pop rows front-to-back, re-encoded as messages. -/
def SortBuffer.take (b : SortBuffer) : Option Message × SortBuffer :=
  if b.isFull then
    match b.buffer with
    | [] => (none, b)
    | r :: rest => (some r.message, { b with buffer := rest })
  else
    (none, b)

/-- Repeatedly call `take` up to `n` times, collecting the messages and the
final buffer. -/
def SortBuffer.drain : Nat → SortBuffer → List Message × SortBuffer
  | 0, b => ([], b)
  | n + 1, b =>
    match b.take with
    | (some m, b1) =>
      let p := SortBuffer.drain n b1
      (m :: p.1, p.2)
    | (none, b1) => ([], b1)

/-- Definedness of the resolved sort columns on a row: every resolved
column index is an actual column of the row. -/
def KeysDefined (cols : List (Option (Nat × Bool))) (dr : DataRow) : Prop :=
  ∀ p ∈ cols, ∀ q ∈ p, q.1 < dr.columns.length

instance (cols : List (Option (Nat × Bool))) (dr : DataRow) :
    Decidable (KeysDefined cols dr) := by
  unfold KeysDefined; infer_instance

/-! ### Query router (`frontend/router/parser/query.rs`, `value.rs`)

External collaborators not under `src/` are modelled from the spec:
`Route` (spec §3: shard selector plus read/write affinity plus the
ORDER BY list; `None` means no pinned shard, i.e. fan out), the cluster
snapshot, `WhereClause::keys` (modelled as the extracted per-table key
list, with `Key::Parameter` carrying the 0-based parameter index `n-1` for
a `$n` placeholder), `Bind::parameter` (the 0-based parameter list lookup)
and `shard_str`/`shard_int` (deterministic hash to `[0, shards)`,
parameterized by the hash functions). -/

/-- Read/write affinity of a route. -/
inductive Affinity where
  | read
  | write
  | unknown
deriving DecidableEq, Repr

/-- Modelled from the spec: a query route — shard selector (`none` = no
pinned shard, fan out / any), affinity, and the ORDER BY list. -/
structure Route where
  shard : Option Nat
  affinity : Affinity
  order_by : List OrderBy
deriving DecidableEq, Repr

/-- `Route::read`. -/
def Route.read (shard : Option Nat) : Route := ⟨shard, .read, []⟩

/-- `Route::write`. -/
def Route.write (shard : Option Nat) : Route := ⟨shard, .write, []⟩

/-- `Route::select`: a read route carrying the ORDER BY list. -/
def Route.select (shard : Option Nat) (order_by : List OrderBy) : Route :=
  ⟨shard, .read, order_by⟩

/-- `Route::overwrite_shard`. -/
def Route.overwrite_shard (r : Route) (shard : Nat) : Route :=
  { r with shard := some shard }

/-- A sharded table of the cluster schema: optional table name and the
sharding column. -/
structure ShardedTable where
  name : Option Bstr
  column : Bstr

/-- Modelled from the spec: the cluster snapshot fields the router reads —
number of shards, the read-only/write-only flags and the sharded-table
catalog. -/
structure Cluster where
  shardCount : Nat
  read_only : Bool
  write_only : Bool
  shaded_tables : List ShardedTable

/-- An equality key collected from a WHERE clause: a constant value or a
parameter reference carrying its 0-based Bind index. -/
inductive Key where
  | constant (value : Bstr)
  | parameter (idx : Nat)

/-- Modelled from the spec: the keys-per-sharded-column view of a parsed
WHERE clause (`WhereClause::keys`, not under `src/`). -/
abbrev WhereKeys := Option Bstr → Bstr → List Key

/-- A Bind-message parameter value: text or binary format. -/
inductive BindParam where
  | text (value : Bstr)
  | binary (value : Bstr)
deriving DecidableEq, Repr

/-- `Parameter::text()`: only text-format parameters can be decoded as
text. -/
def BindParam.text? : BindParam → Option Bstr
  | .text v => some v
  | .binary _ => none

/-- Modelled from the spec: the Bind (F) message's parameter list. -/
structure Bind where
  params : List BindParam
deriving DecidableEq, Repr

/-- `Bind::parameter(index)`: 0-based lookup into the parameter list. -/
def Bind.parameter (b : Bind) (index : Nat) : Except Unit (Option BindParam) :=
  .ok (b.params.get? index)

/-- Modelled from the spec: `shard_str` hashes a text value into
`[0, shards)` (parameterized by the deterministic hash function). -/
def shard_str (hash : Bstr → Nat) (value : Bstr) (shards : Nat) : Option Nat :=
  if shards = 0 then none else some (hash value % shards)

/-- Modelled from the spec: `shard_int` hashes an integer value into
`[0, shards)`. -/
def shard_int (hashInt : Int → Nat) (value : Int) (shards : Nat) : Nat :=
  hashInt value % shards

/-- A value extracted from a query (`frontend/router/parser/value.rs`). -/
inductive Value where
  | string (s : Bstr)
  | integer (i : Int)
  | boolean (b : Bool)
  | null
  | placeholder (n : Int)
deriving DecidableEq, Repr

/-- `Value::shard`: hash a constant; booleans, NULL and placeholders have
no shard. -/
def Value.shard (v : Value) (hash : Bstr → Nat) (hashInt : Int → Nat) (shards : Nat) :
    Option Nat :=
  match v with
  | .string s => shard_str hash s shards
  | .integer i => some (shard_int hashInt i shards)
  | _ => none

/-- `Value::shard_placeholder`: a `$n` placeholder is resolved against the
Bind message's parameter `n as usize - 1`, decoded as text; everything else
falls back to `Value::shard`. -/
def Value.shard_placeholder (v : Value) (hash : Bstr → Nat) (hashInt : Int → Nat)
    (bind : Bind) (shards : Nat) : Option Nat :=
  match v with
  | .placeholder n =>
    ((((bind.parameter (i32AsUsize n - 1)).toOption.bind id).bind
      fun value => (value.text?).map fun t => shard_str hash t shards).bind id)
  | _ => v.shard hash hashInt shards

/-- HashSet insertion modelled on lists: add the shard unless present. -/
def insertShard (shards : List Nat) (s : Nat) : List Nat :=
  if s ∈ shards then shards else s :: shards

/-- The per-key body of the collection loop in `QueryParser::select`:
a constant hashes through `shard_str`; a parameter reads the Bind
message's parameter at its 0-based index and hashes its text (binary
parameters produce nothing); a resolved shard is inserted into the set. -/
def collectKey (hash : Bstr → Nat) (shardCount : Nat) (params : Option Bind)
    (shards : List Nat) (key : Key) : List Nat :=
  match key with
  | .constant value =>
    match shard_str hash value shardCount with
    | some s => insertShard shards s
    | none => shards
  | .parameter p =>
    match params with
    | none => shards
    | some bind =>
      match ((bind.parameter p).toOption.bind id).bind BindParam.text? with
      | some t =>
        match shard_str hash t shardCount with
        | some s => insertShard shards s
        | none => shards
      | none => shards

/-- The per-table body of the collection loop in `QueryParser::select`:
fold `collectKey` over the WHERE keys of the table's sharding column. -/
def collectTable (hash : Bstr → Nat) (shardCount : Nat) (wc : WhereKeys)
    (params : Option Bind) (shards : List Nat) (table : ShardedTable) : List Nat :=
  (wc table.name table.column).foldl (collectKey hash shardCount params) shards

/-- The key-collection loop of `QueryParser::select`: for every sharded
table, every key of the WHERE clause on its sharding column resolves to a
shard, collected into a set. -/
def collectShards (hash : Bstr → Nat) (cluster : Cluster) (wc : WhereKeys)
    (params : Option Bind) : List Nat :=
  cluster.shaded_tables.foldl
    (collectTable hash cluster.shardCount wc params) []

/-- The shard one key resolves to (the specification-side characterization
of `collectKey`, used to state the C5 theorem): `shard_str` of the
constant, or `shard_str` of the text of the Bind parameter at the key's
0-based index. -/
def keyShard (hash : Bstr → Nat) (shardCount : Nat) (params : Option Bind) :
    Key → Option Nat
  | .constant value => shard_str hash value shardCount
  | .parameter p =>
    match params with
    | none => none
    | some bind =>
      match ((bind.parameter p).toOption.bind id).bind BindParam.text? with
      | some t => shard_str hash t shardCount
      | none => none

/-- Router commands (`Command` in `query.rs`); the copy plan's contents are
outside the modelled core. -/
inductive Command where
  | query (route : Route)
  | copy
  | startTransaction
  | commitTransaction
  | rollbackTransaction
deriving DecidableEq, Repr

/-- `QueryParser::select`: collect the shard set from the WHERE clause; a
singleton set pins the route to that shard, any other size leaves the
route unpinned (fan out); the ORDER BY clauses ride on the route. -/
def selectCommand (hash : Bstr → Nat) (cluster : Cluster) (wcOpt : Option WhereKeys)
    (params : Option Bind) (sortClause : List OrderBy) : Command :=
  let shards :=
    match wcOpt with
    | none => []
    | some wc => collectShards hash cluster wc params
  let shard := if shards.length = 1 then shards.head? else none
  .query (Route.select shard sortClause)

/-- Transaction statement kinds the router distinguishes. -/
inductive TransKind where
  | commit
  | rollback
  | begin
  | start
  | otherKind
deriving DecidableEq, Repr

/-- The top-level statement shape the router dispatches on (the AST is an
external collaborator; only the router-visible structure is kept). -/
inductive Stmt where
  | selectStmt (tablesEmpty : Bool) (wc : Option WhereKeys) (sortClause : List OrderBy)
  | copyStmt (sharded : Bool)
  | insertStmt
  | updateStmt
  | deleteStmt
  | transactionStmt (kind : TransKind)
  | otherStmt

/-- The router-visible result of `pg_query::parse`: the top-level statement
(none when the statement list is empty). -/
structure AstInfo where
  root : Option Stmt

/-- Router errors (`frontend/router/error.rs`). -/
inductive RouterErr where
  | pgQuery
  | emptyQuery
deriving DecidableEq, Repr

/-- The two shard-stamping steps at the end of `QueryParser::query`: the
comment shard overrides a query route's shard, then a one-shard cluster
forces shard 0. -/
def stampShard (shard : Option Nat) (cluster : Cluster) (c : Command) : Command :=
  let c1 :=
    match shard, c with
    | some s, .query r => Command.query (r.overwrite_shard s)
    | _, c0 => c0
  if cluster.shardCount = 1 then
    match c1 with
    | .query r => .query (r.overwrite_shard 0)
    | c2 => c2
  else c1

/-- `QueryParser::query`: short-circuit a single-shard cluster with a
read-only or write-only flag to a pinned route on shard 0 before the
comment scan and the AST parse; otherwise read the comment shard, parse,
dispatch on the statement kind, and stamp the shard overrides (transaction
commands and the no-table SELECT return early, skipping the stamping). -/
def queryCommand (hash : Bstr → Nat) (cluster : Cluster)
    (commentShard : Except Unit (Option Nat)) (ast : Except Unit AstInfo)
    (params : Option Bind) (rr : Nat) : Except RouterErr Command :=
  if cluster.shardCount = 1 ∧ cluster.read_only = true then
    .ok (.query (Route.read (some 0)))
  else if cluster.shardCount = 1 ∧ cluster.write_only = true then
    .ok (.query (Route.write (some 0)))
  else
    match commentShard with
    | .error _ => .error .pgQuery
    | .ok shard =>
      match ast with
      | .error _ => .error .pgQuery
      | .ok info =>
        match info.root with
        | none => .error .emptyQuery
        | some (.selectStmt tablesEmpty wc sortClause) =>
          if tablesEmpty = true ∧ shard = none then
            .ok (.query (Route.read (some (rr % cluster.shardCount))))
          else
            .ok (stampShard shard cluster (selectCommand hash cluster wc params sortClause))
        | some (.copyStmt sharded) =>
          .ok (stampShard shard cluster
            (if sharded then .copy else .query (Route.write none)))
        | some .insertStmt => .ok (stampShard shard cluster (.query (Route.write none)))
        | some .updateStmt => .ok (stampShard shard cluster (.query (Route.write none)))
        | some .deleteStmt => .ok (stampShard shard cluster (.query (Route.write none)))
        | some (.transactionStmt .commit) => .ok .commitTransaction
        | some (.transactionStmt .rollback) => .ok .rollbackTransaction
        | some (.transactionStmt .begin) => .ok .startTransaction
        | some (.transactionStmt .start) => .ok .startTransaction
        | some (.transactionStmt .otherKind) =>
          .ok (stampShard shard cluster (.query (Route.write none)))
        | some .otherStmt => .ok (stampShard shard cluster (.query (Route.write none)))

/-! ### Pool configuration (`backend/pool/config.rs`) -/

/-- A duration in milliseconds (`Duration::from_millis`). -/
structure DurationMs where
  millis : Nat
deriving DecidableEq, Repr

/-- Pool configuration; all durations in milliseconds. -/
structure Config where
  min : Nat
  max : Nat
  checkout_timeout : Nat
  idle_timeout : Nat
  connect_timeout : Nat
  max_age : Nat
deriving DecidableEq, Repr

/-- `Config::connect_timeout()` as written in the source: it returns
`Duration::from_millis(self.checkout_timeout)` — the `checkout_timeout`
field, not the `connect_timeout` field. -/
def Config.connectTimeout (c : Config) : DurationMs := ⟨c.checkout_timeout⟩

/-- `Config::checkout_timeout()`. -/
def Config.checkoutTimeout (c : Config) : DurationMs := ⟨c.checkout_timeout⟩

/-- `Config::idle_timeout()`. -/
def Config.idleTimeout (c : Config) : DurationMs := ⟨c.idle_timeout⟩

/-- `Config::max_age()`. -/
def Config.maxAge (c : Config) : DurationMs := ⟨c.max_age⟩

/-- `Config::default()`. -/
def Config.default : Config :=
  { min := 1, max := 10, checkout_timeout := 5000, idle_timeout := 60000,
    connect_timeout := 5000, max_age := 24 * 3600 * 1000 }

/-! ### Concrete inputs used by counterexamples and witnesses -/

/-- A one-field row description used as a concrete counterexample input. -/
def rdOneField : RowDescription :=
  { fields := [{ name := [97], table_oid := 0, column := 0, type_oid := 25,
                 type_size := -1, type_modifier := -1, format := 0 }] }

/-- An empty row description used as a concrete counterexample input. -/
def rdNoFields : RowDescription := { fields := [] }

/-- A framed DataRow payload claiming one column of length `-1` (the wire
NULL convention): tag 'D', length 10, column count 1, length bytes
`FF FF FF FF` and no column data. -/
def nullColumnBytes : Bstr := [68, 0, 0, 0, 10, 0, 1, 255, 255, 255, 255]

/-- An idle server with zeroed counters. -/
def srvIdle : Server :=
  { state := .idle, queries := 0, transactions := 0, bytes_received := 0, sent := [] }

/-- A ReadyForQuery message with status 'T' (idle in transaction). -/
def msgZT : SrvMsg := { code := 'Z', status := 'T', len := 6 }

/-- A ReadyForQuery message with status 'I' (idle). -/
def msgZI : SrvMsg := { code := 'Z', status := 'I', len := 6 }

/-- A pool configuration whose connect and checkout timeouts differ. -/
def cfgDistinct : Config :=
  { min := 1, max := 10, checkout_timeout := 5000, idle_timeout := 60000,
    connect_timeout := 1000, max_age := 86400000 }

end Pgdog

namespace Pgdog

/-! ## Theorems -/

/-- Pairs in a zip agree iff the entries agree at every index below both lengths. -/
theorem zip_all_agree (xs ys : List WireField) :
    ((xs.zip ys).all fun p =>
      decide (p.1.name = p.2.name) && decide (p.1.type_oid = p.2.type_oid)) = true ↔
    ∀ (i : Nat) (ha : i < xs.length) (hb : i < ys.length),
      (xs.get ⟨i, ha⟩).name = (ys.get ⟨i, hb⟩).name ∧
      (xs.get ⟨i, ha⟩).type_oid = (ys.get ⟨i, hb⟩).type_oid := by
  induction xs generalizing ys with
  | nil => simp
  | cons x xs ih =>
    cases ys with
    | nil => simp
    | cons y ys =>
      simp only [List.zip_cons_cons, List.all_cons, Bool.and_eq_true, decide_eq_true_eq, ih]
      constructor
      · rintro ⟨⟨hn, ht⟩, hrest⟩ i ha hb
        cases i with
        | zero => exact ⟨hn, ht⟩
        | succ j =>
          exact hrest j (Nat.lt_of_succ_lt_succ ha) (Nat.lt_of_succ_lt_succ hb)
      · intro h
        refine ⟨h 0 (Nat.succ_pos _) (Nat.succ_pos _), fun j hja hjb => ?_⟩
        exact h (j + 1) (Nat.succ_lt_succ hja) (Nat.succ_lt_succ hjb)

/-- C1 counterexample: `RowDescription::equivalent` does not compare field
counts.  An empty row description and a one-field row description have
different numbers of fields, yet `equivalent` returns `true`, refuting the
claimed iff (which requires equal field counts). -/
theorem c1_counterexample :
    RowDescription.equivalent rdNoFields rdOneField = true ∧
    rdNoFields.fields.length ≠ rdOneField.fields.length := by
  decide

/-- C1 (amended): `RowDescription::equivalent(rd1, rd2)` returns `true` iff for
every index below the length of the shorter field list, the i-th fields of the
two row descriptions agree on `name` and `type_oid`.  The field counts
themselves are not compared: extra trailing fields of the longer row
description are ignored. -/
theorem c1_equivalent_spec (rd1 rd2 : RowDescription) :
    RowDescription.equivalent rd1 rd2 = true ↔
    ∀ (i : Nat) (ha : i < rd1.fields.length) (hb : i < rd2.fields.length),
      (rd1.fields.get ⟨i, ha⟩).name = (rd2.fields.get ⟨i, hb⟩).name ∧
      (rd1.fields.get ⟨i, ha⟩).type_oid = (rd2.fields.get ⟨i, hb⟩).type_oid :=
  zip_all_agree rd1.fields rd2.fields

/-- Decoding a freshly encoded i16 gives the value back. -/
theorem getI16_encI16 (v : Int) (h1 : -32768 ≤ v) (h2 : v < 32768) (rest : Bstr) :
    getI16 (encI16 v ++ rest) = .ok (v, rest) := by
  have h0 : 0 ≤ v % 65536 := Int.emod_nonneg v (by norm_num)
  have hlt : v % 65536 < 65536 := Int.emod_lt_of_pos v (by norm_num)
  have hcast : ((v % 65536).toNat : Int) = v % 65536 := Int.toNat_of_nonneg h0
  simp only [encI16, getI16, List.cons_append, List.nil_append, Except.ok.injEq, Prod.mk.injEq,
    and_true, decI16]
  have hn : (v % 65536).toNat / 256 * 256 + (v % 65536).toNat % 256 = (v % 65536).toNat := by
    omega
  rw [hn]
  split <;> omega

/-- Decoding a freshly encoded i32 gives the value back. -/
theorem getI32_encI32 (v : Int) (h1 : -2147483648 ≤ v) (h2 : v < 2147483648) (rest : Bstr) :
    getI32 (encI32 v ++ rest) = .ok (v, rest) := by
  have h0 : 0 ≤ v % 4294967296 := Int.emod_nonneg v (by norm_num)
  have hlt : v % 4294967296 < 4294967296 := Int.emod_lt_of_pos v (by norm_num)
  have hcast : ((v % 4294967296).toNat : Int) = v % 4294967296 := Int.toNat_of_nonneg h0
  simp only [encI32, getI32, List.cons_append, List.nil_append, Except.ok.injEq, Prod.mk.injEq,
    and_true, decI32]
  have hn : (v % 4294967296).toNat / 16777216 * 16777216 +
      ((v % 4294967296).toNat / 65536 % 256 * 65536 +
        ((v % 4294967296).toNat / 256 % 256 * 256 + (v % 4294967296).toNat % 256)) =
      (v % 4294967296).toNat := by omega
  rw [show ∀ a b c d : Nat, a * 16777216 + b * 65536 + c * 256 + d =
    a * 16777216 + (b * 65536 + (c * 256 + d)) from by intro a b c d; ring, hn]
  split <;> omega

/-- A `wrapI16` of a length below 2^15 is the length itself. -/
theorem wrapI16_small (n : Nat) (h : n < 32768) : wrapI16 n = n := by
  simp only [wrapI16]
  have : n % 65536 = n := Nat.mod_eq_of_lt (by omega)
  rw [this]
  split <;> omega

/-- A `wrapI32` of a length below 2^31 is the length itself. -/
theorem wrapI32_small (n : Nat) (h : n < 2147483648) : wrapI32 n = n := by
  simp only [wrapI32]
  have : n % 4294967296 = n := Nat.mod_eq_of_lt (by omega)
  rw [this]
  split <;> omega

/-- Casting a small nonnegative i32 to usize is the identity. -/
theorem i32AsUsize_small (n : Nat) (h : n < 2147483648) :
    i32AsUsize (n : Int) = n := by
  simp only [i32AsUsize]
  omega

/-- Casting a small nonnegative i16 to usize is the identity. -/
theorem i16AsUsize_small (n : Nat) (h : n < 32768) :
    i16AsUsize (n : Int) = n := by
  simp only [i16AsUsize]
  omega

/-- Reading a NUL-terminated string back from its encoding. -/
theorem c_string_buf_append (s rest : Bstr) (h : ∀ b ∈ s, b ≠ 0) :
    c_string_buf (s ++ [0] ++ rest) = (s, rest) := by
  induction s with
  | nil => simp [c_string_buf]
  | cons b bs ih =>
    have hb : b ≠ 0 := h b (by simp)
    simp only [List.cons_append, c_string_buf, hb, if_false, List.append_eq]
    rw [ih (fun x hx => h x (by simp [hx]))]

/-- Reading a NUL-free buffer as a C string consumes it whole. -/
theorem c_string_buf_all (s : Bstr) (h : ∀ b ∈ s, b ≠ 0) :
    c_string_buf s = (s, []) := by
  induction s with
  | nil => simp [c_string_buf]
  | cons b bs ih =>
    have hb : b ≠ 0 := h b (by simp)
    simp only [c_string_buf, hb, if_false]
    rw [ih (fun x hx => h x (by simp [hx]))]

/-- Reading back `n` raw bytes from their encoding. -/
theorem getN_append (s rest : Bstr) :
    getN s.length (s ++ rest) = .ok (s, rest) := by
  simp [getN, List.take_append, List.drop_append]

/-- The message prelude of a frame leaves exactly the body plus the rest. -/
theorem msgPrelude_frame (tag : Nat) (body rest : Bstr) :
    msgPrelude tag (frame tag body ++ rest) = .ok (body ++ rest) := by
  simp [frame, msgPrelude, encI32, getU8, getI32, bind, Except.bind]

/-- `c_string_buf` with the NUL written as a cons cell. -/
theorem c_string_buf_cons (s t : Bstr) (h : ∀ b ∈ s, b ≠ 0) :
    c_string_buf (s ++ 0 :: t) = (s, t) := by
  have := c_string_buf_append s t h
  simpa [List.append_assoc] using this

/-- A NUL-free byte string from a well-formedness assumption. -/
theorem BstrWf.no_nul {s : Bstr} (h : BstrWf s) : ∀ b ∈ s, b ≠ 0 :=
  fun b hb => by have := h b hb; omega

/-- The message prelude of a frame with nothing after it. -/
theorem msgPrelude_frame0 (tag : Nat) (body : Bstr) :
    msgPrelude tag (frame tag body) = .ok body := by
  have := msgPrelude_frame tag body []
  simpa using this

/-- Decoding a single encoded field from the head of a buffer. -/
theorem getField_encField (f : WireField) (hwf : WireFieldWf f) (rest : Bstr) :
    getField (encField f ++ rest) = .ok (f, rest) := by
  obtain ⟨hname, ht, hc, hto, hts, htm, hfm⟩ := hwf
  have e0 : ∀ r : Bstr, c_string_buf (f.name ++ 0 :: r) = (f.name, r) :=
    fun r => c_string_buf_cons _ _ hname.no_nul
  have e1 : ∀ r, getI32 (encI32 f.table_oid ++ r) = .ok (f.table_oid, r) :=
    fun r => getI32_encI32 _ ht.1 ht.2 r
  have e2 : ∀ r, getI16 (encI16 f.column ++ r) = .ok (f.column, r) :=
    fun r => getI16_encI16 _ hc.1 hc.2 r
  have e3 : ∀ r, getI32 (encI32 f.type_oid ++ r) = .ok (f.type_oid, r) :=
    fun r => getI32_encI32 _ hto.1 hto.2 r
  have e4 : ∀ r, getI16 (encI16 f.type_size ++ r) = .ok (f.type_size, r) :=
    fun r => getI16_encI16 _ hts.1 hts.2 r
  have e5 : ∀ r, getI32 (encI32 f.type_modifier ++ r) = .ok (f.type_modifier, r) :=
    fun r => getI32_encI32 _ htm.1 htm.2 r
  have e6 : ∀ r, getI16 (encI16 f.format ++ r) = .ok (f.format, r) :=
    fun r => getI16_encI16 _ hfm.1 hfm.2 r
  simp only [getField, encField, List.append_assoc, List.singleton_append, List.cons_append, List.nil_append,
    e0, e1, e2, e3, e4, e5, e6, bind, Except.bind]

/-- Decoding a list of encoded fields from the head of a buffer. -/
theorem getFields_enc (fields : List WireField) (h : ∀ f ∈ fields, WireFieldWf f)
    (rest : Bstr) :
    getFields fields.length ((fields.map encField).flatten ++ rest) = .ok (fields, rest) := by
  induction fields with
  | nil => simp [getFields]
  | cons f fs ih =>
    have h1 := getField_encField f (h f (by simp)) ((fs.map encField).flatten ++ rest)
    have h2 := ih (fun g hg => h g (by simp [hg]))
    simp only [List.length_cons, List.map_cons, List.flatten_cons, List.append_assoc, getFields,
      h1, h2, bind, Except.bind]

/-- RowDescription round-trip: decoding the encoding of a well-formed row
description restores it. -/
theorem rowDescription_roundtrip (rd : RowDescription) (h : RowDescriptionWf rd) :
    RowDescription.from_bytes rd.to_bytes = .ok rd := by
  obtain ⟨hlen, hfields⟩ := h
  have hpre := msgPrelude_frame0 84
    (encI16 (wrapI16 rd.fields.length) ++ (rd.fields.map encField).flatten)
  have h16 : getI16 (encI16 (wrapI16 rd.fields.length) ++ (rd.fields.map encField).flatten) =
      .ok ((rd.fields.length : Int), (rd.fields.map encField).flatten) := by
    rw [wrapI16_small _ hlen]
    exact getI16_encI16 _ (by omega) (by exact_mod_cast hlen) _
  have hcast : ((rd.fields.length : Int)).toNat = rd.fields.length := by omega
  have hflds := getFields_enc rd.fields hfields []
  rw [List.append_nil] at hflds
  simp only [RowDescription.from_bytes, RowDescription.to_bytes, hpre, h16, hcast, hflds,
    bind, Except.bind]

/-- Decoding a list of encoded columns from the head of a buffer. -/
theorem getColumns_enc (cols : List Bstr) (h : ∀ c ∈ cols, c.length < 2147483648)
    (rest : Bstr) :
    getColumns cols.length
      ((cols.map fun c => encI32 (wrapI32 c.length) ++ c).flatten ++ rest) =
      .ok (cols, rest) := by
  induction cols with
  | nil => simp [getColumns]
  | cons c cs ih =>
    have hc := h c (by simp)
    have h1 : getI32 (encI32 (wrapI32 c.length) ++
        (c ++ ((cs.map fun d => encI32 (wrapI32 d.length) ++ d).flatten ++ rest))) =
        .ok ((c.length : Int),
          c ++ ((cs.map fun d => encI32 (wrapI32 d.length) ++ d).flatten ++ rest)) := by
      rw [wrapI32_small _ hc]
      exact getI32_encI32 _ (by omega) (by exact_mod_cast hc) _
    have h2 : getN (i32AsUsize (c.length : Int))
        (c ++ ((cs.map fun d => encI32 (wrapI32 d.length) ++ d).flatten ++ rest)) =
        .ok (c, (cs.map fun d => encI32 (wrapI32 d.length) ++ d).flatten ++ rest) := by
      rw [i32AsUsize_small _ hc]
      exact getN_append _ _
    have h3 := ih (fun d hd => h d (by simp [hd]))
    simp only [List.length_cons, List.map_cons, List.flatten_cons, List.append_assoc,
      getColumns, h1, h2, h3, bind, Except.bind]

/-- DataRow round-trip: decoding the encoding of a well-formed data row
restores it. -/
theorem dataRow_roundtrip (dr : DataRow) (h : DataRowWf dr) :
    DataRow.from_bytes dr.to_bytes = .ok dr := by
  obtain ⟨hlen, hcols⟩ := h
  have hpre := msgPrelude_frame0 68 (encI16 (wrapI16 dr.columns.length) ++
    (dr.columns.map fun c => encI32 (wrapI32 c.length) ++ c).flatten)
  have h16 : getI16 (encI16 (wrapI16 dr.columns.length) ++
      (dr.columns.map fun c => encI32 (wrapI32 c.length) ++ c).flatten) =
      .ok ((dr.columns.length : Int),
        (dr.columns.map fun c => encI32 (wrapI32 c.length) ++ c).flatten) := by
    rw [wrapI16_small _ hlen]
    exact getI16_encI16 _ (by omega) (by exact_mod_cast hlen) _
  have hcast : ((dr.columns.length : Int)).toNat = dr.columns.length := by omega
  have hcs := getColumns_enc dr.columns hcols []
  rw [List.append_nil] at hcs
  simp only [DataRow.from_bytes, DataRow.to_bytes, hpre, h16, hcast, hcs, bind, Except.bind]

/-- Decoding a list of encoded i32 values from the head of a buffer. -/
theorem getI32Many_enc (vs : List Int) (h : ∀ v ∈ vs, inI32 v) (rest : Bstr) :
    getI32Many vs.length ((vs.map encI32).flatten ++ rest) = .ok (vs, rest) := by
  induction vs with
  | nil => simp [getI32Many]
  | cons v tl ih =>
    have hv := h v (by simp)
    have h1 := getI32_encI32 v hv.1 hv.2 ((tl.map encI32).flatten ++ rest)
    have h2 := ih (fun w hw => h w (by simp [hw]))
    simp only [List.length_cons, List.map_cons, List.flatten_cons, List.append_assoc,
      getI32Many, h1, h2, bind, Except.bind]

/-- Parse round-trip: decoding the encoding of a well-formed Parse message
restores it. -/
theorem parse_roundtrip (p : Parse) (h : ParseWf p) :
    Parse.from_bytes p.to_bytes = .ok p := by
  obtain ⟨hn, hq, hlen, hdt⟩ := h
  have hpre := msgPrelude_frame0 80 (p.name ++ [0] ++ p.query ++ [0] ++
    encI16 (wrapI16 p.data_types.length) ++ (p.data_types.map encI32).flatten)
  simp only [List.append_assoc, List.singleton_append, List.cons_append,
    List.nil_append] at hpre
  have e0 : ∀ r : Bstr, c_string_buf (p.name ++ 0 :: r) = (p.name, r) :=
    fun r => c_string_buf_cons _ _ hn.no_nul
  have e1 : ∀ r : Bstr, c_string_buf (p.query ++ 0 :: r) = (p.query, r) :=
    fun r => c_string_buf_cons _ _ hq.no_nul
  have h16 : getI16 (encI16 (wrapI16 p.data_types.length) ++ (p.data_types.map encI32).flatten) =
      .ok ((p.data_types.length : Int), (p.data_types.map encI32).flatten) := by
    rw [wrapI16_small _ hlen]
    exact getI16_encI16 _ (by omega) (by exact_mod_cast hlen) _
  have hcast : i16AsUsize ((p.data_types.length : Int)) = p.data_types.length :=
    i16AsUsize_small _ hlen
  have hmany := getI32Many_enc p.data_types hdt []
  rw [List.append_nil] at hmany
  simp only [Parse.from_bytes, Parse.to_bytes, List.append_assoc, List.singleton_append,
    List.cons_append, List.nil_append, hpre, e0, e1, h16, hcast, hmany, bind, Except.bind]

/-- ParameterStatus round-trip: decoding the encoding of a well-formed
ParameterStatus restores it. -/
theorem parameterStatus_roundtrip (ps : ParameterStatus) (h : ParameterStatusWf ps) :
    ParameterStatus.from_bytes ps.to_bytes = .ok ps := by
  obtain ⟨hn, hv⟩ := h
  have hpre := msgPrelude_frame0 83 (ps.name ++ [0] ++ ps.value ++ [0])
  simp only [List.append_assoc, List.singleton_append, List.cons_append,
    List.nil_append] at hpre
  have e0 : ∀ r : Bstr, c_string_buf (ps.name ++ 0 :: r) = (ps.name, r) :=
    fun r => c_string_buf_cons _ _ hn.no_nul
  have e1 : ∀ r : Bstr, c_string_buf (ps.value ++ 0 :: r) = (ps.value, r) :=
    fun r => c_string_buf_cons _ _ hv.no_nul
  simp only [ParameterStatus.from_bytes, ParameterStatus.to_bytes, List.append_assoc,
    List.singleton_append, List.cons_append, List.nil_append, hpre, e0, e1, bind, Except.bind]

/-- Password round-trip: decoding the encoding of a well-formed Password
message restores it. -/
theorem password_roundtrip (pw : Password) (h : PasswordWf pw) :
    Password.from_bytes pw.to_bytes = .ok pw := by
  cases pw with
  | saslInitialResponse name response =>
    obtain ⟨hn, hr, hlen⟩ := h
    have hpre := msgPrelude_frame0 112
      (name ++ [0] ++ encI32 (wrapI32 response.length) ++ response)
    simp only [List.append_assoc, List.singleton_append, List.cons_append,
      List.nil_append] at hpre
    have e0 : ∀ r : Bstr, c_string_buf (name ++ 0 :: r) = (name, r) :=
      fun r => c_string_buf_cons _ _ hn.no_nul
    have h32 : getI32 (encI32 (wrapI32 response.length) ++ response) =
        .ok ((response.length : Int), response) := by
      rw [wrapI32_small _ hlen]
      exact getI32_encI32 _ (by omega) (by exact_mod_cast hlen) _
    have hne : encI32 (wrapI32 response.length) ++ response ≠ [] := by
      simp [encI32]
    have hresp : c_string_buf response = (response, []) := c_string_buf_all _ hr.no_nul
    have hnn : (0 : Int) ≤ (response.length : Int) := by exact_mod_cast Nat.zero_le _
    simp only [Password.from_bytes, Password.to_bytes, List.append_assoc,
      List.singleton_append, List.cons_append, List.nil_append, hpre, e0, h32, hresp, bind, Except.bind,
      ne_eq, hne, not_false_eq_true, if_true, ite_true, if_pos hnn]
  | saslResponse response =>
    have hrwf : BstrWf response := h
    have hpre := msgPrelude_frame0 112 response
    have hresp : c_string_buf response = (response, []) := c_string_buf_all _ hrwf.no_nul
    simp only [Password.from_bytes, Password.to_bytes, hpre, hresp, bind, Except.bind,
      ne_eq, not_true_eq_false, if_false, ite_false]

/-- C4 counterexample: the DataRow codec has no `-1 = NULL` convention.
Decoding a framed DataRow payload whose single column carries the wire
length `-1` does not produce a NULL column: the length is cast `as usize`
(2^64 - 1) and the read fails, so the claimed round-trip of the NULL
convention does not exist. -/
theorem c4_null_counterexample :
    DataRow.from_bytes nullColumnBytes = .error .eof := by
  rfl

/-- C4 (amended): `decode(encode(m)) == m` for DataRow, RowDescription,
Parse, ParameterStatus and Password values whose fields fit their wire
widths (counts below 2^15, lengths below 2^31, strings NUL-free).  A
DataRow payload written as a column count followed by `[length][bytes]`
per column round-trips; the codec has no NULL representation: `to_bytes`
never writes length `-1`, and `from_bytes` treats the length as an
unsigned byte count, so a `-1` length fails to decode. -/
theorem c4_codec_roundtrip :
    (∀ dr : DataRow, DataRowWf dr → DataRow.from_bytes dr.to_bytes = Except.ok dr) ∧
    (∀ rd : RowDescription, RowDescriptionWf rd →
      RowDescription.from_bytes rd.to_bytes = Except.ok rd) ∧
    (∀ p : Parse, ParseWf p → Parse.from_bytes p.to_bytes = Except.ok p) ∧
    (∀ ps : ParameterStatus, ParameterStatusWf ps →
      ParameterStatus.from_bytes ps.to_bytes = Except.ok ps) ∧
    (∀ pw : Password, PasswordWf pw → Password.from_bytes pw.to_bytes = Except.ok pw) :=
  ⟨dataRow_roundtrip, rowDescription_roundtrip, parse_roundtrip,
    parameterStatus_roundtrip, password_roundtrip⟩

/-- C4 witness: the round-trip theorem applied to concrete messages — a
two-column data row (one empty column), the one-field row description, a
Parse with one data type, a ParameterStatus and both Password shapes. -/
theorem c4_codec_roundtrip_witness :
    DataRow.from_bytes (DataRow.to_bytes ⟨[[49, 50], []]⟩) = Except.ok ⟨[[49, 50], []]⟩ ∧
    RowDescription.from_bytes rdOneField.to_bytes = Except.ok rdOneField ∧
    Parse.from_bytes (Parse.to_bytes ⟨[115], [83, 69, 76], [25]⟩) =
      Except.ok ⟨[115], [83, 69, 76], [25]⟩ ∧
    ParameterStatus.from_bytes (ParameterStatus.to_bytes ⟨[110], [118]⟩) =
      Except.ok ⟨[110], [118]⟩ ∧
    Password.from_bytes (Password.to_bytes (.saslInitialResponse [83] [114])) =
      Except.ok (.saslInitialResponse [83] [114]) ∧
    Password.from_bytes (Password.to_bytes (.saslResponse [114, 115])) =
      Except.ok (.saslResponse [114, 115]) :=
  ⟨c4_codec_roundtrip.1 _ (by decide),
   c4_codec_roundtrip.2.1 _ (by decide),
   c4_codec_roundtrip.2.2.1 _ (by decide),
   c4_codec_roundtrip.2.2.2.1 _ (by decide),
   c4_codec_roundtrip.2.2.2.2 _ (by decide),
   c4_codec_roundtrip.2.2.2.2 _ (by decide)⟩

/-- C8: the source of `Config::connect_timeout()` returns
`Duration::from_millis(self.checkout_timeout)`, contradicting both its doc
comment and the spec ("connect obeys connect_timeout").  On a configuration
with `connect_timeout = 1000` and `checkout_timeout = 5000`, the connect
timeout duration is 5000 ms, differs from
`Duration::from_millis(connect_timeout)`, and always coincides with the
checkout timeout duration. -/
theorem c8_connect_timeout_bug :
    cfgDistinct.connect_timeout = 1000 ∧
    cfgDistinct.checkout_timeout = 5000 ∧
    Config.connectTimeout cfgDistinct = DurationMs.mk 5000 ∧
    Config.connectTimeout cfgDistinct ≠ DurationMs.mk cfgDistinct.connect_timeout ∧
    Config.connectTimeout cfgDistinct = Config.checkoutTimeout cfgDistinct := by
  decide

/-- C10: the generic `Message` wrapper is a byte-exact identity codec:
`from_bytes` succeeds on every input byte string, `to_bytes` returns
exactly the stored bytes, and `code` is the first byte of the payload. -/
theorem c10_message_byte_identity (b : Bstr) :
    ∃ m : Message, Message.from_bytes b = Except.ok m ∧
      Message.to_bytes m = b ∧ Message.code m = b.head? :=
  ⟨⟨b, false⟩, rfl, rfl, rfl⟩

/-- C2 counterexample: on a ReadyForQuery with status 'T' the query counter
is incremented although the connection does not reach Idle, refuting the
claim that the transaction and query counters are incremented exactly when
the connection reaches Idle. -/
theorem c2_counterexample :
    (srvIdle.read msgZT).1.queries = srvIdle.queries + 1 ∧
    (srvIdle.read msgZT).1.state = SrvState.idleInTransaction ∧
    (srvIdle.read msgZT).1.state ≠ SrvState.idle := by
  decide

/-- C2 (amended): on a ReadyForQuery ('Z') message, `Server::read` adds the
message length to the byte counter and increments the query counter
unconditionally; status 'I' moves the state to Idle and increments the
transaction counter, 'T' moves it to IdleInTransaction, 'E' to
TransactionError (neither touching the transaction counter), and any other
status byte is fatal: the state becomes Error and the call fails with
`UnexpectedTransactionStatus`. -/
theorem c2_read_ready_for_query (s : Server) (m : SrvMsg) (h : m.code = 'Z') :
    (s.read m).1.bytes_received = s.bytes_received + m.len ∧
    (s.read m).1.queries = s.queries + 1 ∧
    (m.status = 'I' →
      (s.read m).1.state = SrvState.idle ∧
      (s.read m).1.transactions = s.transactions + 1 ∧
      (s.read m).2 = Except.ok m) ∧
    (m.status = 'T' →
      (s.read m).1.state = SrvState.idleInTransaction ∧
      (s.read m).1.transactions = s.transactions ∧
      (s.read m).2 = Except.ok m) ∧
    (m.status = 'E' →
      (s.read m).1.state = SrvState.transactionError ∧
      (s.read m).1.transactions = s.transactions ∧
      (s.read m).2 = Except.ok m) ∧
    (m.status ≠ 'I' → m.status ≠ 'T' → m.status ≠ 'E' →
      (s.read m).1.state = SrvState.error ∧
      (s.read m).1.transactions = s.transactions ∧
      (s.read m).2 = Except.error (SrvErr.unexpectedTransactionStatus m.status)) := by
  unfold Server.read
  rw [if_pos h]
  by_cases hI : m.status = 'I'
  · simp [hI]
  · by_cases hT : m.status = 'T'
    · simp [hI, hT]
    · by_cases hE : m.status = 'E'
      · simp [hI, hT, hE]
      · simp [hI, hT, hE]

/-- C2 witness: the amended theorem applied to an idle server receiving
ReadyForQuery with status 'I'. -/
theorem c2_read_ready_for_query_witness :
    (srvIdle.read msgZI).1.state = SrvState.idle ∧
    (srvIdle.read msgZI).1.transactions = srvIdle.transactions + 1 ∧
    (srvIdle.read msgZI).1.queries = srvIdle.queries + 1 := by
  have h := c2_read_ready_for_query srvIdle msgZI rfl
  exact ⟨(h.2.2.1 rfl).1, (h.2.2.1 rfl).2.1, h.2.1⟩

/-- C6: against a cluster with exactly one shard and a read-only or
write-only flag, the router short-circuits, before the comment scan and
the AST parse (both arguments are arbitrary, including failed parses), to
a route pinned to shard 0 with the affinity the flags dictate. -/
theorem c6_single_shard_short_circuit (hash : Bstr → Nat) (cluster : Cluster)
    (commentShard : Except Unit (Option Nat)) (ast : Except Unit AstInfo)
    (params : Option Bind) (rr : Nat) (h1 : cluster.shardCount = 1) :
    (cluster.read_only = true →
      queryCommand hash cluster commentShard ast params rr =
        Except.ok (Command.query (Route.read (some 0)))) ∧
    (cluster.read_only = false → cluster.write_only = true →
      queryCommand hash cluster commentShard ast params rr =
        Except.ok (Command.query (Route.write (some 0)))) := by
  constructor
  · intro hr
    unfold queryCommand
    rw [if_pos ⟨h1, hr⟩]
  · intro hr hw
    unfold queryCommand
    rw [if_neg (by simp [h1, hr]), if_pos ⟨h1, hw⟩]

/-- Draining a full sort buffer yields its rows front-to-back, re-encoded
as messages, leaving an empty (still full) buffer. -/
theorem drain_full_buffer (l : List DataRow) :
    SortBuffer.drain l.length ⟨l, true⟩ = (l.map DataRow.message, ⟨[], true⟩) := by
  induction l with
  | nil => simp [SortBuffer.drain]
  | cons r rest ih =>
    simp only [List.length_cons, List.map_cons, SortBuffer.drain, SortBuffer.take, if_true, ih]

/-- C9: `SortBuffer::take` returns `None` (leaving the buffer untouched)
until `full()` has been called, regardless of the rows added; once the
buffer is full, successive `take` calls return the buffered rows
front-to-back as messages and then `None` on the exhausted buffer — so no
DataRow is emitted before the buffer is explicitly marked full. -/
theorem c9_take_full_contract (b : SortBuffer) :
    (b.isFull = false → b.take = (none, b)) ∧
    (b.isFull = true →
      SortBuffer.drain b.buffer.length b = (b.buffer.map DataRow.message, ⟨[], true⟩) ∧
      (SortBuffer.take ⟨[], true⟩).1 = none) := by
  constructor
  · intro h
    simp [SortBuffer.take, h]
  · intro h
    obtain ⟨buf, fl⟩ := b
    simp only at h
    subst h
    exact ⟨drain_full_buffer buf, rfl⟩

/-- C9 witness: a two-row buffer gives out nothing while not full, and
after `full()` yields both rows in order and then nothing. -/
theorem c9_take_full_contract_witness :
    SortBuffer.take ⟨[⟨[[49]]⟩, ⟨[[50]]⟩], false⟩ = (none, ⟨[⟨[[49]]⟩, ⟨[[50]]⟩], false⟩) ∧
    SortBuffer.drain 2 ⟨[⟨[[49]]⟩, ⟨[[50]]⟩], true⟩ =
      ([DataRow.message ⟨[[49]]⟩, DataRow.message ⟨[[50]]⟩], ⟨[], true⟩) ∧
    (SortBuffer.take ⟨[], true⟩).1 = none := by
  refine ⟨(c9_take_full_contract ⟨[⟨[[49]]⟩, ⟨[[50]]⟩], false⟩).1 rfl, ?_, ?_⟩
  · exact ((c9_take_full_contract ⟨[⟨[[49]]⟩, ⟨[[50]]⟩], true⟩).2 rfl).1
  · exact ((c9_take_full_contract ⟨[⟨[[49]]⟩, ⟨[[50]]⟩], true⟩).2 rfl).2

/-- `Server::read` never touches the sent-message log. -/
theorem Server.read_sent (s : Server) (m : SrvMsg) : (s.read m).1.sent = s.sent := by
  simp only [Server.read]
  repeat' split
  all_goals rfl

/-- `Server::read` returns the message it read when it succeeds. -/
theorem Server.read_ok_msg (s : Server) (m x : SrvMsg) (s1 : Server)
    (h : s.read m = (s1, .ok x)) : x = m := by
  simp only [Server.read] at h
  repeat' split at h
  all_goals simp_all

/-- Reading a cons through `readMany`. -/
theorem Server.readMany_cons (s : Server) (m : SrvMsg) (l : List SrvMsg) :
    Server.readMany s (m :: l) = Server.readMany (s.read m).1 l := rfl

/-- `executeLoop` never touches the sent-message log. -/
theorem executeLoop_sent (input : List SrvMsg) : ∀ s : Server,
    (executeLoop input s).1.sent = s.sent := by
  induction input with
  | nil =>
    intro s
    unfold executeLoop
    by_cases hs : s.in_sync <;> simp [hs]
  | cons m rest ih =>
    intro s
    unfold executeLoop
    by_cases hs : s.in_sync
    · simp [hs]
    · simp only [hs, if_false, ite_false, Bool.false_eq_true]
      rcases hr : s.read m with ⟨s1, r⟩
      have hsent : s1.sent = s.sent := by
        have := Server.read_sent s m
        rw [hr] at this
        exact this
      cases r with
      | ok msg =>
        rcases hl : executeLoop rest s1 with ⟨s2, r2⟩
        have h2 : s2.sent = s1.sent := by
          have := ih s1
          rw [hl] at this
          exact this
        cases r2 <;> simp [hl, h2, hsent]
      | error e => simpa using hsent

/-- The success case of the `execute` read loop: the final state is in
sync, the messages read are the consumed prefix of the inbound stream, the
final state is the fold of `read` over them, and every proper prefix left
the connection out of sync (the loop reads *until* in sync). -/
theorem executeLoop_ok (input : List SrvMsg) : ∀ (s s' : Server) (msgs : List SrvMsg),
    executeLoop input s = (s', .ok msgs) →
    s'.in_sync = true ∧ msgs = input.take msgs.length ∧ msgs.length ≤ input.length ∧
    s' = Server.readMany s msgs ∧
    ∀ j, j < msgs.length → (Server.readMany s (input.take j)).in_sync = false := by
  induction input with
  | nil =>
    intro s s' msgs h
    unfold executeLoop at h
    by_cases hs : s.in_sync
    · rw [if_pos hs] at h
      obtain ⟨h1, h2⟩ := Prod.mk.injEq .. ▸ h
      injection h2 with h2
      subst h1; subst h2
      exact ⟨hs, rfl, by simp, rfl, by intro j hj; simp at hj⟩
    · rw [if_neg hs] at h
      simp at h
  | cons m rest ih =>
    intro s s' msgs h
    unfold executeLoop at h
    by_cases hs : s.in_sync
    · rw [if_pos hs] at h
      obtain ⟨h1, h2⟩ := Prod.mk.injEq .. ▸ h
      injection h2 with h2
      subst h1; subst h2
      exact ⟨hs, rfl, by simp, rfl, by intro j hj; simp at hj⟩
    · rw [if_neg hs] at h
      dsimp only at h
      rcases hr : s.read m with ⟨s1, r⟩
      rw [hr] at h
      cases r with
      | ok msg =>
        have hmsg : msg = m := Server.read_ok_msg s m msg s1 hr
        subst hmsg
        dsimp only at h
        rcases hl : executeLoop rest s1 with ⟨s2, r2⟩
        rw [hl] at h
        cases r2 with
        | ok msgs2 =>
          obtain ⟨h1, h2⟩ := Prod.mk.injEq .. ▸ h
          injection h2 with h2
          subst h1
          subst h2
          obtain ⟨i1, i2, i3, i4, i5⟩ := ih s1 s2 msgs2 hl
          have hfst : (s.read msg).1 = s1 := by rw [hr]
          refine ⟨i1, ?_, by simp [Nat.succ_le_succ i3], ?_, ?_⟩
          · simpa [List.take_succ_cons] using congrArg (List.cons msg) i2
          · rw [Server.readMany_cons, hfst]
            exact i4
          · intro j hj
            cases j with
            | zero =>
              simpa [Server.readMany] using Bool.not_eq_true s.in_sync ▸ hs
            | succ k =>
              rw [List.take_succ_cons, Server.readMany_cons, hfst]
              exact i5 k (Nat.lt_of_succ_lt_succ hj)
        | error e => simp at h
      | error e => simp at h

/-- C7: `Server::execute` fails with `NotInSync` — sending nothing and
leaving the connection untouched — whenever the connection is not in sync;
when it is in sync, it appends exactly one `Query(sql)` to the stream and,
on success, has read messages until the connection is in sync again (every
proper prefix of the consumed messages leaves it out of sync) and returns
the full list of messages read, in order. -/
theorem c7_execute_contract (s : Server) (sql : Bstr) (input : List SrvMsg) :
    (s.in_sync = false → Server.execute s sql input = (s, .error .notInSync)) ∧
    (s.in_sync = true →
      (Server.execute s sql input).1.sent = s.sent ++ [SentMsg.query sql] ∧
      ∀ s' msgs, Server.execute s sql input = (s', Except.ok msgs) →
        s'.in_sync = true ∧ msgs = input.take msgs.length ∧
        s' = Server.readMany (s.send [.query sql]) msgs ∧
        ∀ j, j < msgs.length →
          (Server.readMany (s.send [.query sql]) (input.take j)).in_sync = false) := by
  constructor
  · intro h
    unfold Server.execute
    rw [h]
    rfl
  · intro h
    constructor
    · unfold Server.execute
      rw [h]
      simp only [if_true]
      rw [executeLoop_sent]
      simp [Server.send]
    · intro s' msgs hms
      unfold Server.execute at hms
      rw [h] at hms
      simp only [if_true] at hms
      obtain ⟨h1, h2, _, h4, h5⟩ := executeLoop_ok input (s.send [.query sql]) s' msgs hms
      exact ⟨h1, h2, h4, h5⟩

/-- C7 witness: an idle server executing a query over a stream holding one
ReadyForQuery(Idle) reads exactly that message and ends in sync, having
sent the query. -/
theorem c7_execute_contract_witness :
    (Server.execute srvIdle [83] [msgZI]).1.sent = srvIdle.sent ++ [SentMsg.query [83]] ∧
    (Server.execute srvIdle [83] [msgZI]).2 = Except.ok [msgZI] ∧
    ((c : Server × Except SrvErr (List SrvMsg)) → c = Server.execute srvIdle [83] [msgZI] →
      c.1.in_sync = true) := by
  have h := (c7_execute_contract srvIdle [83] [msgZI]).2 rfl
  refine ⟨h.1, rfl, ?_⟩
  intro c hc
  have he : Server.execute srvIdle [83] [msgZI] =
      ((Server.execute srvIdle [83] [msgZI]).1, Except.ok [msgZI]) := rfl
  have := (h.2 (Server.execute srvIdle [83] [msgZI]).1 [msgZI] he).1
  rw [hc]
  exact this

/-- The three-way byte comparison is `eq` exactly on equal values. -/
theorem ncmp_eq_iff (x y : Nat) : ncmp x y = .eq ↔ x = y := by
  unfold ncmp
  by_cases h1 : x < y
  · simp [h1]
    omega
  · by_cases h2 : y < x
    · simp [h1, h2]
      omega
    · simp [h1, h2]
      omega

/-- The three-way byte comparison anticommutes. -/
theorem ncmp_swap (x y : Nat) : ncmp x y = (ncmp y x).swap := by
  unfold ncmp
  by_cases h1 : x < y <;> by_cases h2 : y < x <;>
    simp [h1, h2, Ordering.swap] <;> omega

/-- The three-way byte comparison is transitive in `lt`. -/
theorem ncmp_lt_trans (x y z : Nat) (h1 : ncmp x y = .lt) (h2 : ncmp y z = .lt) :
    ncmp x z = .lt := by
  unfold ncmp at h1 h2 ⊢
  by_cases hxy : x < y <;> by_cases hyz : y < z <;> by_cases hxz : x < z <;>
    simp [hxy, hyz, hxz] at h1 h2 ⊢ <;> omega

/-- Lexicographic byte comparison is `eq` exactly on equal strings. -/
theorem cmpBytes_eq_iff : ∀ (a b : Bstr), cmpBytes a b = .eq ↔ a = b
  | [], [] => by simp [cmpBytes]
  | [], _ :: _ => by simp [cmpBytes]
  | _ :: _, [] => by simp [cmpBytes]
  | x :: xs, y :: ys => by
    simp only [cmpBytes]
    cases h : ncmp x y with
    | eq =>
      have hxy : x = y := (ncmp_eq_iff x y).1 h
      simp [hxy, cmpBytes_eq_iff xs ys]
    | lt =>
      have hxy : x ≠ y := fun he => by
        rw [he, (ncmp_eq_iff y y).2 rfl] at h
        exact Ordering.noConfusion h
      simp [hxy]
    | gt =>
      have hxy : x ≠ y := fun he => by
        rw [he, (ncmp_eq_iff y y).2 rfl] at h
        exact Ordering.noConfusion h
      simp [hxy]

/-- Lexicographic byte comparison anticommutes. -/
theorem cmpBytes_swap : ∀ (a b : Bstr), cmpBytes a b = (cmpBytes b a).swap
  | [], [] => by simp [cmpBytes, Ordering.swap]
  | [], _ :: _ => by simp [cmpBytes, Ordering.swap]
  | _ :: _, [] => by simp [cmpBytes, Ordering.swap]
  | x :: xs, y :: ys => by
    simp only [cmpBytes]
    rw [ncmp_swap x y]
    cases h : ncmp y x with
    | eq => simpa [Ordering.swap] using cmpBytes_swap xs ys
    | lt => simp [Ordering.swap]
    | gt => simp [Ordering.swap]

/-- Lexicographic byte comparison is transitive in `lt`. -/
theorem cmpBytes_lt_trans : ∀ (a b c : Bstr),
    cmpBytes a b = .lt → cmpBytes b c = .lt → cmpBytes a c = .lt
  | [], [], _, h1, _ => by simp [cmpBytes] at h1
  | [], _ :: _, [], _, h2 => by simp [cmpBytes] at h2
  | [], _ :: _, _ :: _, _, _ => by simp [cmpBytes]
  | _ :: _, [], _, h1, _ => by simp [cmpBytes] at h1
  | _ :: _, _ :: _, [], _, h2 => by simp [cmpBytes] at h2
  | x :: xs, y :: ys, z :: zs, h1, h2 => by
    simp only [cmpBytes] at h1 h2 ⊢
    cases hxy : ncmp x y with
    | gt => rw [hxy] at h1; exact absurd h1 (by simp)
    | eq =>
      rw [hxy] at h1
      have hxyv : x = y := (ncmp_eq_iff x y).1 hxy
      cases hyz : ncmp y z with
      | gt => rw [hyz] at h2; exact absurd h2 (by simp)
      | eq =>
        rw [hyz] at h2
        have hyzv : y = z := (ncmp_eq_iff y z).1 hyz
        have : ncmp x z = .eq := (ncmp_eq_iff x z).2 (hxyv.trans hyzv)
        rw [this]
        exact cmpBytes_lt_trans xs ys zs h1 h2
      | lt =>
        have : ncmp x z = .lt := hxyv ▸ hyz
        rw [this]
    | lt =>
      cases hyz : ncmp y z with
      | gt => rw [hyz] at h2; exact absurd h2 (by simp)
      | eq =>
        have hyzv : y = z := (ncmp_eq_iff y z).1 hyz
        have : ncmp x z = .lt := hyzv ▸ hxy
        rw [this]
      | lt =>
        rw [ncmp_lt_trans x y z hxy hyz]

/-- Swapping `eq` is the identity on `eq`-ness. -/
theorem ordering_swap_eq_iff (o : Ordering) : o.swap = .eq ↔ o = .eq := by
  cases o <;> simp [Ordering.swap]

/-- An ordering that is neither `gt` nor `eq` is `lt`. -/
theorem ordering_ne_gt_ne_eq (o : Ordering) (h1 : o ≠ .gt) (h2 : o ≠ .eq) : o = .lt := by
  cases o <;> simp_all

/-- Reduction of the row comparator at a column both rows possess. -/
theorem rowCmp_cons_some (rd : RowDescription) (i : Nat) (asc : Bool)
    (rest : List (Option (Nat × Bool))) (a b : DataRow) (va vb : Bstr)
    (ha : a.columns[i]? = some va) (hb : b.columns[i]? = some vb) :
    rowCmp rd (some (i, asc) :: rest) a b =
      if (if asc then cmpBytes va vb else cmpBytes vb va) = .eq then rowCmp rd rest a b
      else (if asc then cmpBytes va vb else cmpBytes vb va) := by
  simp [rowCmp, DataRow.get_column, List.get?_eq_getElem?, ha, hb]

/-- Reduction of the row comparator at a column either row lacks: the
column compares equal and the tail decides. -/
theorem rowCmp_cons_miss (rd : RowDescription) (i : Nat) (asc : Bool)
    (rest : List (Option (Nat × Bool))) (a b : DataRow)
    (h : a.columns[i]? = none ∨ b.columns[i]? = none) :
    rowCmp rd (some (i, asc) :: rest) a b = rowCmp rd rest a b := by
  cases ha : a.columns[i]? with
  | none =>
    cases hb : b.columns[i]? with
    | none => simp [rowCmp, DataRow.get_column, List.get?_eq_getElem?, ha, hb]
    | some vb => simp [rowCmp, DataRow.get_column, List.get?_eq_getElem?, ha, hb]
  | some va =>
    cases hb : b.columns[i]? with
    | none => simp [rowCmp, DataRow.get_column, List.get?_eq_getElem?, ha, hb]
    | some vb => simp_all

/-- The row comparator of `SortBuffer::sort` anticommutes. -/
theorem rowCmp_swap (rd : RowDescription) : ∀ (cols : List (Option (Nat × Bool)))
    (a b : DataRow), rowCmp rd cols a b = (rowCmp rd cols b a).swap
  | [], _, _ => rfl
  | none :: rest, a, b => rowCmp_swap rd rest a b
  | some (i, asc) :: rest, a, b => by
    cases ha : a.columns[i]? with
    | none =>
      rw [rowCmp_cons_miss rd i asc rest a b (Or.inl ha),
        rowCmp_cons_miss rd i asc rest b a (Or.inr ha)]
      exact rowCmp_swap rd rest a b
    | some va =>
      cases hb : b.columns[i]? with
      | none =>
        rw [rowCmp_cons_miss rd i asc rest a b (Or.inr hb),
          rowCmp_cons_miss rd i asc rest b a (Or.inl hb)]
        exact rowCmp_swap rd rest a b
      | some vb =>
        rw [rowCmp_cons_some rd i asc rest a b va vb ha hb,
          rowCmp_cons_some rd i asc rest b a vb va hb ha]
        have hswap : (if asc then cmpBytes va vb else cmpBytes vb va) =
            (if asc then cmpBytes vb va else cmpBytes va vb).swap := by
          cases asc with
          | true =>
            rw [if_pos rfl, if_pos rfl]
            exact cmpBytes_swap va vb
          | false =>
            rw [if_neg Bool.false_ne_true, if_neg Bool.false_ne_true]
            exact cmpBytes_swap vb va
        rw [hswap]
        by_cases he : (if asc then cmpBytes vb va else cmpBytes va vb) = .eq
        · rw [if_pos ((ordering_swap_eq_iff _).2 he), if_pos he]
          exact rowCmp_swap rd rest a b
        · rw [if_neg (fun hc => he ((ordering_swap_eq_iff _).1 hc)), if_neg he]

/-- The "not greater" relation derived from the row comparator is total. -/
theorem rowLe_total (rd : RowDescription) (cols : List (Option (Nat × Bool)))
    (a b : DataRow) : rowLe rd cols a b || rowLe rd cols b a := by
  simp only [rowLe, Bool.or_eq_true, decide_eq_true_eq]
  by_cases h : rowCmp rd cols a b = .gt
  · right
    rw [rowCmp_swap rd cols b a, h]
    simp [Ordering.swap]
  · left
    exact h

/-- A `KeysDefined` row has a value at every resolved column. -/
theorem KeysDefined.head_some {dr : DataRow} {i : Nat} {asc : Bool}
    {rest : List (Option (Nat × Bool))}
    (h : KeysDefined (some (i, asc) :: rest) dr) :
    ∃ v, dr.columns[i]? = some v := by
  have hi : i < dr.columns.length :=
    h (some (i, asc)) (List.mem_cons_self _ _) (i, asc) (Option.mem_def.mpr rfl)
  exact ⟨dr.columns[i], List.getElem?_eq_getElem hi⟩

/-- `KeysDefined` descends to the tail of the column list. -/
theorem KeysDefined.tail {dr : DataRow} {p : Option (Nat × Bool)}
    {cols : List (Option (Nat × Bool))}
    (h : KeysDefined (p :: cols) dr) : KeysDefined cols dr :=
  fun q hq => h q (List.mem_cons_of_mem _ hq)

/-- The "not greater" relation derived from the row comparator is
transitive on rows that have values at every resolved column. -/
theorem rowLe_trans (rd : RowDescription) : ∀ (cols : List (Option (Nat × Bool)))
    (a b c : DataRow), KeysDefined cols a → KeysDefined cols b → KeysDefined cols c →
    rowCmp rd cols a b ≠ .gt → rowCmp rd cols b c ≠ .gt → rowCmp rd cols a c ≠ .gt
  | [], _, _, _, _, _, _, _, _ => by simp [rowCmp]
  | none :: rest, a, b, c, hA, hB, hC, h1, h2 =>
    rowLe_trans rd rest a b c hA.tail hB.tail hC.tail h1 h2
  | some (i, asc) :: rest, a, b, c, hA, hB, hC, h1, h2 => by
    obtain matchva : ∃ v, a.columns[i]? = some v := hA.head_some
    obtain ⟨va, hva⟩ := matchva
    obtain ⟨vb, hvb⟩ := hB.head_some
    obtain ⟨vc, hvc⟩ := hC.head_some
    rw [rowCmp_cons_some rd i asc rest a b va vb hva hvb] at h1
    rw [rowCmp_cons_some rd i asc rest b c vb vc hvb hvc] at h2
    rw [rowCmp_cons_some rd i asc rest a c va vc hva hvc]
    have hu_eq : ∀ x y : Bstr,
        ((if asc then cmpBytes x y else cmpBytes y x) = .eq) ↔ x = y := by
      intro x y
      cases asc with
      | true =>
        rw [if_pos rfl]
        exact cmpBytes_eq_iff x y
      | false =>
        rw [if_neg Bool.false_ne_true]
        exact (cmpBytes_eq_iff y x).trans eq_comm
    have hu_trans : ∀ x y z : Bstr,
        (if asc then cmpBytes x y else cmpBytes y x) = .lt →
        (if asc then cmpBytes y z else cmpBytes z y) = .lt →
        (if asc then cmpBytes x z else cmpBytes z x) = .lt := by
      intro x y z hx hy
      cases asc with
      | true =>
        rw [if_pos rfl] at hx hy ⊢
        exact cmpBytes_lt_trans x y z hx hy
      | false =>
        rw [if_neg Bool.false_ne_true] at hx hy ⊢
        exact cmpBytes_lt_trans z y x hy hx
    have ihr := rowLe_trans rd rest a b c hA.tail hB.tail hC.tail
    by_cases e1 : (if asc then cmpBytes va vb else cmpBytes vb va) = .eq
    · have hv12 : va = vb := (hu_eq va vb).1 e1
      rw [if_pos e1] at h1
      subst hv12
      by_cases e2 : (if asc then cmpBytes va vc else cmpBytes vc va) = .eq
      · rw [if_pos e2] at h2 ⊢
        exact ihr h1 h2
      · rw [if_neg e2] at h2 ⊢
        exact h2
    · rw [if_neg e1] at h1
      have hlt1 : (if asc then cmpBytes va vb else cmpBytes vb va) = .lt :=
        ordering_ne_gt_ne_eq _ h1 e1
      by_cases e2 : (if asc then cmpBytes vb vc else cmpBytes vc vb) = .eq
      · have hv23 : vb = vc := (hu_eq vb vc).1 e2
        subst hv23
        rw [if_neg e1]
        exact h1
      · rw [if_neg e2] at h2
        have hlt2 : (if asc then cmpBytes vb vc else cmpBytes vc vb) = .lt :=
          ordering_ne_gt_ne_eq _ h2 e2
        have hlt : (if asc then cmpBytes va vc else cmpBytes vc va) = .lt :=
          hu_trans va vb vc hlt1 hlt2
        rw [if_neg (by simp [hlt]), hlt]
        simp

/-- C3: `SortBuffer::sort` over `n` buffered rows yields a permutation of
them (so `n` rows out for `n` in); when every row has a value at every
resolved ORDER BY column, the output is ordered consistently with the
comparator (each adjacent — indeed each later — pair is "not greater",
i.e. ascending/descending per clause with lexicographic tie-breaks), and
the sort is stable: two rows comparing equal keep their input order. -/
theorem c3_sort_buffer (b : SortBuffer) (columns : List OrderBy) (rd : RowDescription) :
    (b.sort columns rd).buffer.Perm b.buffer ∧
    (b.sort columns rd).buffer.length = b.buffer.length ∧
    ((∀ r ∈ b.buffer, KeysDefined (resolveCols columns rd) r) →
      (b.sort columns rd).buffer.Pairwise
        (fun x y => rowCmp rd (resolveCols columns rd) x y ≠ Ordering.gt) ∧
      ∀ x y, rowCmp rd (resolveCols columns rd) x y = Ordering.eq →
        [x, y].Sublist b.buffer → [x, y].Sublist (b.sort columns rd).buffer) := by
  have hsort : (b.sort columns rd).buffer =
      b.buffer.mergeSort (fun x y => rowLe rd (resolveCols columns rd) x y) := rfl
  refine ⟨?_, ?_, ?_⟩
  · rw [hsort]
    exact List.mergeSort_perm b.buffer _
  · rw [hsort]
    exact (List.mergeSort_perm b.buffer _).length_eq
  · intro H
    have transT : ∀ x y z : {r // r ∈ b.buffer},
        rowLe rd (resolveCols columns rd) x.1 y.1 →
        rowLe rd (resolveCols columns rd) y.1 z.1 →
        rowLe rd (resolveCols columns rd) x.1 z.1 := by
      intro x y z hxy hyz
      simp only [rowLe, decide_eq_true_eq] at hxy hyz ⊢
      exact rowLe_trans rd (resolveCols columns rd) x.1 y.1 z.1
        (H _ x.2) (H _ y.2) (H _ z.2) hxy hyz
    have totalT : ∀ x y : {r // r ∈ b.buffer},
        rowLe rd (resolveCols columns rd) x.1 y.1 ||
        rowLe rd (resolveCols columns rd) y.1 x.1 :=
      fun x y => rowLe_total rd (resolveCols columns rd) x.1 y.1
    have hmap := @List.map_mergeSort {r // r ∈ b.buffer} DataRow
      (fun x y => rowLe rd (resolveCols columns rd) x.1 y.1)
      (fun x y => rowLe rd (resolveCols columns rd) x y)
      Subtype.val b.buffer.attach (fun x _ y _ => rfl)
    rw [List.attach_map_subtype_val] at hmap
    constructor
    · rw [hsort]
      have hpw := List.sorted_mergeSort transT totalT b.buffer.attach
      have hpw2 : ((b.buffer.attach.mergeSort
          (fun x y => rowLe rd (resolveCols columns rd) x.1 y.1)).map Subtype.val).Pairwise
          (fun x y : DataRow =>
            rowCmp rd (resolveCols columns rd) x y ≠ Ordering.gt) := by
        rw [List.pairwise_map]
        refine hpw.imp ?_
        intro a c hac
        simpa [rowLe] using hac
      rw [hmap] at hpw2
      exact hpw2
    · intro x y hxy hsub
      rw [hsort]
      have hsub' : [x, y].Sublist (b.buffer.attach.map Subtype.val) := by
        rw [List.attach_map_subtype_val]
        exact hsub
      obtain ⟨l0, hl0, heq⟩ := List.sublist_map_iff.1 hsub'
      cases l0 with
      | nil => simp at heq
      | cons x' l1 =>
        cases l1 with
        | nil => simp at heq
        | cons y' l2 =>
          cases l2 with
          | cons z' l3 => simp at heq
          | nil =>
            simp only [List.map_cons, List.map_nil, List.cons.injEq, and_true] at heq
            obtain ⟨hx, hy⟩ := heq
            have hab : rowLe rd (resolveCols columns rd) x'.1 y'.1 := by
              simp only [rowLe, decide_eq_true_eq, ← hx, ← hy, hxy]
              simp
            have hst := List.pair_sublist_mergeSort transT totalT hab hl0
            have hmapped := hst.map Subtype.val
            rw [hmap] at hmapped
            simpa [← hx, ← hy] using hmapped

/-- C3 witness: two one-column rows sorted ascending by the first column —
the output is a permutation and is pairwise "not greater"; the key
definedness hypothesis holds by computation. -/
theorem c3_sort_buffer_witness :
    (SortBuffer.sort ⟨[⟨[[50]]⟩, ⟨[[49]]⟩], false⟩ [OrderBy.Asc 1] rdOneField).buffer.Perm
      [⟨[[50]]⟩, ⟨[[49]]⟩] ∧
    (SortBuffer.sort ⟨[⟨[[50]]⟩, ⟨[[49]]⟩], false⟩ [OrderBy.Asc 1] rdOneField).buffer.Pairwise
      (fun x y => rowCmp rdOneField (resolveCols [OrderBy.Asc 1] rdOneField) x y ≠
        Ordering.gt) := by
  have h := c3_sort_buffer ⟨[⟨[[50]]⟩, ⟨[[49]]⟩], false⟩ [OrderBy.Asc 1] rdOneField
  refine ⟨h.1, (h.2.2 ?_).1⟩
  decide

/-- Membership in a modelled HashSet insertion. -/
theorem mem_insertShard (l : List Nat) (s x : Nat) :
    x ∈ insertShard l s ↔ x ∈ l ∨ x = s := by
  unfold insertShard
  by_cases hmem : s ∈ l
  · rw [if_pos hmem]
    constructor
    · exact fun h => Or.inl h
    · rintro (h | rfl)
      · exact h
      · exact hmem
  · rw [if_neg hmem]
    simp [List.mem_cons, or_comm, eq_comm]

/-- Membership after collecting one key. -/
theorem mem_collectKey (hash : Bstr → Nat) (shardCount : Nat) (params : Option Bind)
    (acc : List Nat) (k : Key) (x : Nat) :
    x ∈ collectKey hash shardCount params acc k ↔
      x ∈ acc ∨ keyShard hash shardCount params k = some x := by
  cases k with
  | constant v =>
    simp only [collectKey, keyShard]
    cases h : shard_str hash v shardCount with
    | none => simp
    | some s => simp [mem_insertShard, eq_comm]
  | parameter p =>
    simp only [collectKey, keyShard]
    cases params with
    | none => simp
    | some bind =>
      cases h : ((bind.parameter p).toOption.bind fun a => a).bind fun a => a.text? with
      | none => simp [h]
      | some t =>
        cases h2 : shard_str hash t shardCount with
        | none => simp [h, h2]
        | some s => simp [h, h2, mem_insertShard, eq_comm]

/-- Membership after collecting a list of keys. -/
theorem mem_foldl_collectKey (hash : Bstr → Nat) (shardCount : Nat)
    (params : Option Bind) (keys : List Key) : ∀ (acc : List Nat) (x : Nat),
    x ∈ keys.foldl (collectKey hash shardCount params) acc ↔
      x ∈ acc ∨ ∃ k ∈ keys, keyShard hash shardCount params k = some x := by
  induction keys with
  | nil => simp
  | cons k ks ih =>
    intro acc x
    simp only [List.foldl_cons, ih, mem_collectKey, List.mem_cons]
    constructor
    · rintro ((h | h) | ⟨k0, hk0, h⟩)
      · exact Or.inl h
      · exact Or.inr ⟨k, Or.inl rfl, h⟩
      · exact Or.inr ⟨k0, Or.inr hk0, h⟩
    · rintro (h | ⟨k0, (rfl | hk0), h⟩)
      · exact Or.inl (Or.inl h)
      · exact Or.inl (Or.inr h)
      · exact Or.inr ⟨k0, hk0, h⟩

/-- Membership in the collected shard set of `QueryParser::select`: a shard
is collected iff some sharded table has a WHERE-clause key on its sharding
column resolving to it. -/
theorem mem_collectShards (hash : Bstr → Nat) (cluster : Cluster) (wc : WhereKeys)
    (params : Option Bind) (x : Nat) :
    x ∈ collectShards hash cluster wc params ↔
      ∃ t ∈ cluster.shaded_tables, ∃ k ∈ wc t.name t.column,
        keyShard hash cluster.shardCount params k = some x := by
  suffices h : ∀ (tables : List ShardedTable) (acc : List Nat),
      x ∈ tables.foldl (collectTable hash cluster.shardCount wc params) acc ↔
        x ∈ acc ∨ ∃ t ∈ tables, ∃ k ∈ wc t.name t.column,
          keyShard hash cluster.shardCount params k = some x by
    have := h cluster.shaded_tables []
    simpa [collectShards] using this
  intro tables
  induction tables with
  | nil => simp
  | cons t ts ih =>
    intro acc
    simp only [List.foldl_cons, ih, collectTable, mem_foldl_collectKey, List.mem_cons]
    constructor
    · rintro ((h | h) | ⟨t0, ht0, h⟩)
      · exact Or.inl h
      · exact Or.inr ⟨t, Or.inl rfl, h⟩
      · exact Or.inr ⟨t0, Or.inr ht0, h⟩
    · rintro (h | ⟨t0, (rfl | ht0), h⟩)
      · exact Or.inl (Or.inl h)
      · exact Or.inl (Or.inr h)
      · exact Or.inr ⟨t0, ht0, h⟩

/-- C5: `QueryParser::select` collects the equality-key shards of the WHERE
clause (constants via `shard_str`, `$n` parameters via the Bind message's
parameter at the 0-based index, decoded as text only) and pins the route
iff the collected set is a singleton; with no WHERE clause or a non-
singleton set the route has no pinned shard (fan out).  A `$n` placeholder
resolves against Bind parameter `n - 1`; binary parameters resolve to no
shard. -/
theorem c5_select_sharding (hash : Bstr → Nat) (hashInt : Int → Nat) (cluster : Cluster)
    (wc : WhereKeys) (params : Option Bind) (sortClause : List OrderBy) :
    (∀ x, x ∈ collectShards hash cluster wc params ↔
      ∃ t ∈ cluster.shaded_tables, ∃ k ∈ wc t.name t.column,
        keyShard hash cluster.shardCount params k = some x) ∧
    (∀ s0, collectShards hash cluster wc params = [s0] →
      selectCommand hash cluster (some wc) params sortClause =
        Command.query (Route.select (some s0) sortClause)) ∧
    ((collectShards hash cluster wc params).length ≠ 1 →
      selectCommand hash cluster (some wc) params sortClause =
        Command.query (Route.select none sortClause)) ∧
    (selectCommand hash cluster none params sortClause =
      Command.query (Route.select none sortClause)) ∧
    (∀ (n : Int) (bind : Bind) (shards : Nat), 1 ≤ n → n < 2147483648 →
      (Value.placeholder n).shard_placeholder hash hashInt bind shards =
        ((bind.params.get? (n.toNat - 1)).bind BindParam.text?).bind
          fun t => shard_str hash t shards) := by
  refine ⟨mem_collectShards hash cluster wc params, ?_, ?_, rfl, ?_⟩
  · intro s0 hs
    simp [selectCommand, hs]
  · intro h
    simp [selectCommand, if_neg h]
  · intro n bind shards h1 h2
    have hn : i32AsUsize n = n.toNat := by
      unfold i32AsUsize
      omega
    simp only [Value.shard_placeholder, Bind.parameter, Except.toOption, hn]
    cases hg : bind.params.get? (n.toNat - 1) with
    | none => simp
    | some v =>
      cases hv : v.text? with
      | none => simp [hv]
      | some t => simp [hv]

/-- C5 witness: a two-shard cluster with one sharded table and a WHERE
clause yielding one constant key pins the route to the resolved shard; a
binary-format Bind parameter for `$1` resolves to no shard. -/
theorem c5_select_sharding_witness :
    selectCommand (fun _ => 0) ⟨2, false, false, [⟨some [117], [105]⟩]⟩
      (some fun _ _ => [Key.constant [49]]) none [] =
      Command.query (Route.select (some 0) []) ∧
    (Value.placeholder 1).shard_placeholder (fun _ => 0) (fun _ => 0)
      ⟨[BindParam.binary [0]]⟩ 2 = none := by
  constructor
  · exact (c5_select_sharding (fun _ => 0) (fun _ => 0)
      ⟨2, false, false, [⟨some [117], [105]⟩]⟩
      (fun _ _ => [Key.constant [49]]) none []).2.1 0 rfl
  · have := (c5_select_sharding (fun _ => 0) (fun _ => 0)
      ⟨2, false, false, [⟨some [117], [105]⟩]⟩
      (fun _ _ => [Key.constant [49]]) none []).2.2.2.2 1 ⟨[BindParam.binary [0]]⟩ 2
      (by norm_num) (by norm_num)
    simpa using this

/-- C6 witness: the theorem applied to a concrete one-shard read-only
cluster with a failed AST parse. -/
theorem c6_single_shard_witness :
    queryCommand (fun _ => 0)
      { shardCount := 1, read_only := true, write_only := false, shaded_tables := [] }
      (Except.error ()) (Except.error ()) none 0 =
      Except.ok (Command.query (Route.read (some 0))) :=
  (c6_single_shard_short_circuit (fun _ => 0)
    { shardCount := 1, read_only := true, write_only := false, shaded_tables := [] }
    (Except.error ()) (Except.error ()) none 0 rfl).1 rfl

end Pgdog
